import Mathlib

/-!
# Counter filesystem (`Codigos/file_system.c`): a shallow embedding

The driver exposes two in-memory counter files.  This development embeds the
counter-file protocol (`lfs_open`, `lfs_read_file`, `lfs_write_file`) and the
mount-time tree construction (`lfs_make_inode`, `lfs_create_file`,
`lfs_create_dir`, `lfs_create_files`, `lfs_fill_super`) as pure functions with
explicit state passing.

Conventions.
* `int` / `atomic_t` values are `Int` reduced with `wrap32` (two's complement,
  the kernel is built with wrapping signed arithmetic).
* Bytes are `Char`; a stack buffer is a `List (Option Char)` whose `none`
  cells are bytes that were never written.
* A result of `none` stands for undefined behaviour of the C program (a NULL
  dereference or an access outside a buffer).
-/

namespace LFS

set_option linter.constructorNameAsVariable false

/-! ## Machine integers -/

/-- Capacity of the scratch buffers (`#define TMPSIZE 20`). -/
def TMPSIZE : Nat := 20

/-- Magic number of the superblock (`#define LFS_MAGIC 0x19920342`). -/
def LFS_MAGIC : Nat := 0x19920342

/-- Smallest value of a C `int`. -/
def INT_MIN : Int := -2147483648

/-- Largest value of a C `int`. -/
def INT_MAX : Int := 2147483647

/-- Reduction of an integer to the signed 32-bit range (two's complement). -/
def wrap32 (x : Int) : Int := (x + 2147483648) % 4294967296 - 2147483648

/-- Reduction of an integer to the signed 64-bit range (a C `long`). -/
def wrap64 (x : Int) : Int :=
  (x + 9223372036854775808) % 18446744073709551616 - 9223372036854775808

/-! ## Text: what `"%d\n"` prints and what `simple_strtol` parses -/

/-- The NUL byte. -/
def NUL : Char := Char.ofNat 0

/-- The newline byte. -/
def NL : Char := Char.ofNat 10

/-- The minus sign. -/
def MINUS : Char := Char.ofNat 45

/-- The character of a decimal digit, `'0' + d`. -/
def digitChar (d : Nat) : Char := Char.ofNat (48 + d)

/-- C `isdigit`. -/
def isdigit (c : Char) : Bool := decide (48 ≤ c.toNat) && decide (c.toNat ≤ 57)

/-- Decimal digits of `n`, most significant first; the first argument bounds
the recursion and `n + 1` is always enough. -/
def decDigits : Nat → Nat → List Char
  | 0, _ => []
  | fuel + 1, n =>
    if n < 10 then [digitChar n]
    else decDigits fuel (n / 10) ++ [digitChar (n % 10)]

/-- Unsigned decimal conversion (`%u`). -/
def fmt_u (n : Nat) : List Char := decDigits (n + 1) n

/-- Signed decimal conversion (`%d`). -/
def fmt_d (v : Int) : List Char :=
  if v < 0 then MINUS :: fmt_u v.natAbs else fmt_u v.natAbs

/-- The text produced by the format `"%d\n"`. -/
def fmt_d_nl (v : Int) : List Char := fmt_d v ++ [NL]

/-- The host's `snprintf(buf, size, "%d\n", v)`: stores at most `size - 1`
characters of the text followed by a NUL at the start of `buf`, leaves the
rest of `buf` as it was, and returns the length of the whole text. -/
def snprintf (buf : List (Option Char)) (size : Nat) (v : Int) :
    List (Option Char) × Int :=
  let text := fmt_d_nl v
  if size = 0 then (buf, text.length)
  else
    let w := text.take (size - 1)
    (w.map some ++ [some NUL] ++ buf.drop (w.length + 1), text.length)

/-- Digit loop of the host's `simple_strtoull` in base 10: consumes leading
digits, accumulating in an unsigned 64-bit word. -/
def parseDigits : List Char → Nat → Nat
  | [], acc => acc
  | c :: cs, acc =>
    if isdigit c then parseDigits cs ((acc * 10 + (c.toNat - 48)) % 18446744073709551616)
    else acc

/-- The host's `simple_strtoul(cp, NULL, 10)`. -/
def simple_strtoul (cp : List Char) : Nat := parseDigits cp 0

/-- The host's `simple_strtol(cp, NULL, 10)`: an optional leading minus sign,
then `simple_strtoul`; the result is a C `long`. -/
def simple_strtol (cp : List Char) : Int :=
  if cp.head? = some MINUS then wrap64 (-(simple_strtoul cp.tail : Int))
  else wrap64 (simple_strtoul cp : Int)

/-! ## Host framework objects -/

/-- Error numbers the driver returns (negated in C); the spec calls them
`FaultError`, `InvalidArgument` and `OutOfMemory`. -/
inductive Errno where
  | EFAULT
  | EINVAL
  | ENOMEM
  deriving DecidableEq, Repr

/-- A C `ssize_t` / `int` status: a non-negative value or `-errno`. -/
inductive Ret where
  | ok (n : Nat)
  | err (e : Errno)
  deriving DecidableEq, Repr

/-- Address of one of the two static cells `static atomic_t counter, subcounter;`. -/
inductive CounterRef where
  | counter
  | subcounter
  deriving DecidableEq, Repr

/-- The two static atomic cells. -/
structure Globals where
  counter : Int
  subcounter : Int
  deriving DecidableEq, Repr

/-- Host `atomic_read`. -/
def atomic_read (g : Globals) : CounterRef → Int
  | .counter => g.counter
  | .subcounter => g.subcounter

/-- Host `atomic_set`. -/
def atomic_set (g : Globals) (r : CounterRef) (i : Int) : Globals :=
  match r with
  | .counter => { g with counter := i }
  | .subcounter => { g with subcounter := i }

/-- Host `atomic_inc`: adds one, wrapping in 32 bits. -/
def atomic_inc (g : Globals) (r : CounterRef) : Globals :=
  atomic_set g r (wrap32 (atomic_read g r + 1))

/-- Operation tables an inode can point to. -/
inductive FileOps where
  | lfs_file_ops
  | simple_dir_operations
  deriving DecidableEq, Repr

/-- Inode operation tables an inode can point to. -/
inductive InodeOps where
  | simple_dir_inode_operations
  deriving DecidableEq, Repr

/-- File-type bits of `i_mode`. -/
inductive FileType where
  | S_IFREG
  | S_IFDIR
  deriving DecidableEq, Repr

/-- An `i_mode`: file-type bits (`none` when unset) or-ed with permission bits. -/
structure Mode where
  fmt : Option FileType
  perm : Nat
  deriving DecidableEq, Repr

/-- The fields of `struct inode` the driver touches. -/
structure Inode where
  i_ino : Nat
  i_mode : Mode
  i_uid : Nat
  i_gid : Nat
  i_atime : Nat
  i_mtime : Nat
  i_ctime : Nat
  i_nlink : Nat
  i_fop : Option FileOps
  i_op : Option InodeOps
  i_private : Option CounterRef
  deriving DecidableEq, Repr

/-- The field of `struct file` the driver touches. -/
structure File where
  private_data : Option CounterRef
  deriving DecidableEq, Repr

/-! ## Counter file protocol -/

/-- `lfs_open`: binds the descriptor to the inode's counter cell; returns 0. -/
def lfs_open (inode : Inode) (filp : File) : File × Ret :=
  ({ filp with private_data := inode.i_private }, .ok 0)

/-- Collects a run of buffer cells; `none` when one of them was never written. -/
def allSome : List (Option Char) → Option (List Char)
  | [] => some []
  | none :: _ => none
  | some c :: cs => (allSome cs).map (fun l => c :: l)

/-- Reads `n` bytes at `buf + off`; `none` when the range leaves the buffer
or covers a byte that was never written. -/
def memread (buf : List (Option Char)) (off n : Nat) : Option (List Char) :=
  if off + n ≤ buf.length then allSome ((buf.drop off).take n) else none

/-- What one call of `lfs_read_file` leaves behind: the static cells, the
return value, the bytes copied to the caller and the new `*offset`. -/
structure ReadResult where
  g : Globals
  ret : Ret
  out : List Char
  offset : Int
  deriving DecidableEq, Repr

/-- `lfs_read_file(filp, buf, count, offset)`.  `buf_ok` tells whether
`copy_to_user` succeeds; bytes of a failed copy are not tracked.  `tmp` starts
as 20 unwritten bytes; with a negative `*offset` the pointer `tmp + *offset`
leaves the array, which is undefined (`none`), as is a NULL `private_data`. -/
def lfs_read_file (g : Globals) (filp : File) (buf_ok : Bool) (count : Nat)
    (offset : Int) : Option ReadResult :=
  match filp.private_data with
  | none => none
  | some counter =>
    let v0 := atomic_read g counter
    let v := if offset > 0 then wrap32 (v0 - 1) else v0
    let g1 := if offset > 0 then g else atomic_inc g counter
    let r := snprintf (List.replicate TMPSIZE none) TMPSIZE v
    let tmp := r.1
    let len := r.2
    if offset > len then some ⟨g1, .ok 0, [], offset⟩
    else
      let count := if (count : Int) > len - offset then (len - offset).toNat else count
      if offset < 0 then none
      else
        match memread tmp offset.toNat count with
        | none => none
        | some bytes =>
          if buf_ok then some ⟨g1, .ok count, bytes, offset + count⟩
          else some ⟨g1, .err .EFAULT, [], offset⟩

/-- What one call of `lfs_write_file` leaves behind. -/
structure WriteResult where
  g : Globals
  ret : Ret
  offset : Int
  deriving DecidableEq, Repr

/-- `lfs_write_file(filp, buf, count, offset)`: `buf` is the caller's payload,
`count` its length, and `src_ok` tells whether `copy_from_user` succeeds. -/
def lfs_write_file (g : Globals) (filp : File) (buf : List Char) (src_ok : Bool)
    (offset : Int) : Option WriteResult :=
  match filp.private_data with
  | none => none
  | some counter =>
    let count := buf.length
    if offset ≠ 0 then some ⟨g, .err .EINVAL, offset⟩
    else if count ≥ TMPSIZE then some ⟨g, .err .EINVAL, offset⟩
    else
      let tmp := List.replicate TMPSIZE NUL
      if !src_ok then some ⟨g, .err .EFAULT, offset⟩
      else
        let tmp := buf ++ tmp.drop count
        some ⟨atomic_set g counter (wrap32 (simple_strtol tmp)), .ok count, offset⟩

/-! ## Callers: draining a descriptor, complete read cycles -/

/-- A caller that reads one descriptor until a call returns 0, asking for
`req i` bytes in call `i` into a writable buffer.  Returns the bytes received
before the call that returned 0, and the cells and offset after it; `none`
when `fuel` calls were not enough or a call failed. -/
def drain (filp : File) (req : Nat → Nat) :
    Nat → Nat → Globals → Int → Option (List Char × Globals × Int)
  | 0, _, _, _ => none
  | fuel + 1, i, g, off =>
    match lfs_read_file g filp true (req i) off with
    | some ⟨g1, .ok 0, _, off1⟩ => some ([], g1, off1)
    | some ⟨g1, .ok (_ + 1), bytes, off1⟩ =>
      (drain filp req fuel (i + 1) g1 off1).map (fun r => (bytes ++ r.1, r.2))
    | _ => none

/-- One complete read cycle: open a fresh descriptor on `inode`, drain it
from offset 0. -/
def readCycle (inode : Inode) (req : Nat → Nat) (fuel : Nat) (g : Globals) :
    Option (List Char × Globals) :=
  (drain (lfs_open inode ⟨none⟩).1 req fuel 0 g 0).map (fun r => (r.1, r.2.1))

/-- The first `n` complete read cycles in a row; cycle `k` (counted from 0)
asks for `reqs k i` bytes in its call `i`.  Returns the texts in order. -/
def readCycles (inode : Inode) (reqs : Nat → Nat → Nat) (fuel : Nat) :
    Nat → Globals → Option (List (List Char) × Globals)
  | 0, g => some ([], g)
  | n + 1, g =>
    match readCycles inode reqs fuel n g with
    | none => none
    | some (texts, g1) =>
      match readCycle inode (reqs n) fuel g1 with
      | none => none
      | some (t, g2) => some (texts ++ [t], g2)

/-- The value a read at `off` renders: the cell's value at offset 0, one less
(wrapping) on a continuation read. -/
def viewValue (g : Globals) (r : CounterRef) (off : Nat) : Int :=
  if 0 < off then wrap32 (atomic_read g r - 1) else atomic_read g r

/-- The cells after a read at `off`: incremented at offset 0 only. -/
def afterRead (g : Globals) (r : CounterRef) (off : Nat) : Globals :=
  if 0 < off then g else atomic_inc g r

/-- A caller that issues the reads `counts` one after the other on one
descriptor with a writable buffer; returns the return values in order and
the cells and offset at the end. -/
def readAll (filp : File) : List Nat → Globals → Int → Option (List Ret × Globals × Int)
  | [], g, off => some ([], g, off)
  | c :: cs, g, off =>
    match lfs_read_file g filp true c off with
    | none => none
    | some r => (readAll filp cs r.g r.offset).map (fun t => (r.ret :: t.1, t.2))

/-- The integer a payload denotes, in the spec's words: an optional leading
minus sign, then the leading decimal digits read in base 10 (no digits: 0),
whatever follows ignored.  Digit accumulation. -/
def denotedDigits : List Char → Nat → Nat
  | [], acc => acc
  | c :: cs, acc => if isdigit c then denotedDigits cs (acc * 10 + (c.toNat - 48)) else acc

/-- The integer a payload denotes, in the spec's words (see `denotedDigits`);
an unbounded integer, compared with what `lfs_write_file` stores. -/
def denotedInt (payload : List Char) : Int :=
  if payload.head? = some MINUS then -(denotedDigits payload.tail 0 : Int)
  else (denotedDigits payload 0 : Int)

/-! ## Mount: inodes, directory entries, the fixed tree -/

/-- A directory entry: its address, name, parent entry and inode. -/
structure Dentry where
  d_id : Nat
  d_name : String
  d_parent : Option Nat
  d_inode : Option Inode
  deriving DecidableEq, Repr

/-- Superblock operation tables. -/
inductive SuperOps where
  | lfs_s_ops
  deriving DecidableEq, Repr

/-- The fields of `struct super_block` the driver touches. -/
structure SuperBlock where
  s_blocksize : Nat
  s_blocksize_bits : Nat
  s_magic : Nat
  s_op : Option SuperOps
  s_root : Option Dentry
  deriving DecidableEq, Repr

/-- Host state threaded through the mount: `alloc_ok i` tells whether the
`i`-th allocation attempt succeeds and `nalloc` counts the attempts made;
`dentries` are the entries published in the namespace of the superblock being
mounted, in order of publication; `g` holds the two static cells. -/
structure Kernel where
  alloc_ok : Nat → Bool
  nalloc : Nat
  next_ino : Nat
  next_dentry : Nat
  now : Nat
  fsuid : Nat
  fsgid : Nat
  dentries : List Dentry
  g : Globals

/-- One allocation attempt. -/
def tryAlloc (k : Kernel) : Bool × Kernel :=
  (k.alloc_ok k.nalloc, { k with nalloc := k.nalloc + 1 })

/-- Host `new_inode(sb)`: a blank inode with link count 1, or NULL. -/
def new_inode (k : Kernel) (_sb : SuperBlock) : Option Inode × Kernel :=
  match tryAlloc k with
  | (false, k1) => (none, k1)
  | (true, k1) => (some ⟨0, ⟨none, 0⟩, 0, 0, 0, 0, 0, 1, none, none, none⟩, k1)

/-- Host `get_next_ino()`. -/
def get_next_ino (k : Kernel) : Nat × Kernel :=
  (k.next_ino, { k with next_ino := k.next_ino + 1 })

/-- `lfs_make_inode(sb, mode, fops)`. -/
def lfs_make_inode (k : Kernel) (sb : SuperBlock) (mode : Mode) (fops : FileOps) :
    Option Inode × Kernel :=
  match new_inode k sb with
  | (none, k1) => (none, k1)
  | (some inode, k1) =>
    let inode := { inode with i_mode := mode }
    let inode := { inode with i_atime := k1.now, i_mtime := k1.now, i_ctime := k1.now }
    let inode := { inode with i_fop := some fops }
    let r := get_next_ino k1
    (some { inode with i_ino := r.1 }, r.2)

/-- Host `d_alloc_name(parent, name)`: a fresh entry under `parent`, without
an inode and not yet visible in the namespace, or NULL. -/
def d_alloc_name (k : Kernel) (parent : Dentry) (name : String) : Option Dentry × Kernel :=
  match tryAlloc k with
  | (false, k1) => (none, k1)
  | (true, k1) =>
    (some ⟨k1.next_dentry, name, some parent.d_id, none⟩,
      { k1 with next_dentry := k1.next_dentry + 1 })

/-- Host `d_add(dentry, inode)`: binds the inode and publishes the entry. -/
def d_add (k : Kernel) (dentry : Dentry) (inode : Inode) : Kernel :=
  { k with dentries := k.dentries ++ [{ dentry with d_inode := some inode }] }

/-- Host `dput(dentry)` on an entry that was never published: the slot is
released and the namespace is as before. -/
def dput (k : Kernel) (_dentry : Dentry) : Kernel := k

/-- Host `iput(inode)`: inodes are values here, releasing one leaves the
namespace as before. -/
def iput (k : Kernel) (_inode : Inode) : Kernel := k

/-- Host `inode_init_owner(inode, NULL, mode)`: stores the caller's fsuid and
fsgid and the mode through the pointer `inode`; `none` when `inode` is NULL. -/
def inode_init_owner (k : Kernel) (inode : Option Inode) (mode : Mode) : Option Inode :=
  match inode with
  | none => none
  | some i => some { i with i_uid := k.fsuid, i_gid := k.fsgid, i_mode := mode }

/-- Host `set_nlink(inode, nlink)`. -/
def set_nlink (inode : Inode) (nlink : Nat) : Inode := { inode with i_nlink := nlink }

/-- Host `d_make_root(root_inode)`: the root entry (named "/", no parent)
bound to the inode, or NULL. -/
def d_make_root (k : Kernel) (root_inode : Inode) : Option Dentry × Kernel :=
  match tryAlloc k with
  | (false, k1) => (none, iput k1 root_inode)
  | (true, k1) =>
    let d : Dentry := ⟨k1.next_dentry, "/", none, some root_inode⟩
    (some d, { k1 with next_dentry := k1.next_dentry + 1, dentries := k1.dentries ++ [d] })

/-- `lfs_create_file(sb, dir, name, counter)`. -/
def lfs_create_file (k : Kernel) (sb : SuperBlock) (dir : Dentry) (name : String)
    (counter : CounterRef) : Option Dentry × Kernel :=
  match d_alloc_name k dir name with
  | (none, k1) => (none, k1)
  | (some dentry, k1) =>
    match lfs_make_inode k1 sb ⟨some .S_IFREG, 0o644⟩ .lfs_file_ops with
    | (none, k2) => (none, dput k2 dentry)
    | (some inode, k2) =>
      let inode := { inode with i_private := some counter }
      (some dentry, d_add k2 dentry inode)

/-- `lfs_create_dir(sb, parent, name)`. -/
def lfs_create_dir (k : Kernel) (sb : SuperBlock) (parent : Dentry) (name : String) :
    Option Dentry × Kernel :=
  match d_alloc_name k parent name with
  | (none, k1) => (none, k1)
  | (some dentry, k1) =>
    match lfs_make_inode k1 sb ⟨some .S_IFDIR, 0o755⟩ .simple_dir_operations with
    | (none, k2) => (none, dput k2 dentry)
    | (some inode, k2) =>
      let inode := { inode with i_op := some .simple_dir_inode_operations }
      (some dentry, d_add k2 dentry inode)

/-- `lfs_create_files(sb, root)`. -/
def lfs_create_files (k : Kernel) (sb : SuperBlock) (root : Dentry) : Kernel :=
  let k := { k with g := atomic_set k.g .counter 0 }
  let k := (lfs_create_file k sb root "counter" .counter).2
  let k := { k with g := atomic_set k.g .subcounter 0 }
  match lfs_create_dir k sb root "subdir" with
  | (some subdir, k) => (lfs_create_file k sb subdir "subcounter" .subcounter).2
  | (none, k) => k

/-- `lfs_fill_super(sb, data, silent)`; `VMACACHE_SIZE` is a host constant.
The call `inode_init_owner(root, ...)` comes before the test `if (! root)`, as
in the source: a NULL `root` is dereferenced there (`none`), and `pointee` is
the inode behind a non-NULL `root` after the call. -/
def lfs_fill_super (k : Kernel) (sb : SuperBlock) (VMACACHE_SIZE : Nat) :
    Option (Ret × SuperBlock × Kernel) :=
  let sb := { sb with s_blocksize := VMACACHE_SIZE, s_blocksize_bits := VMACACHE_SIZE,
                      s_magic := LFS_MAGIC, s_op := some .lfs_s_ops }
  let r := lfs_make_inode k sb ⟨some .S_IFDIR, 0o755⟩ .simple_dir_operations
  let root := r.1
  let k := r.2
  match inode_init_owner k root ⟨some .S_IFDIR, 0o755⟩ with
  | none => none
  | some pointee =>
    if root.isNone then some (.err .ENOMEM, sb, k)
    else
      let root := { pointee with i_op := some .simple_dir_inode_operations }
      let root := set_nlink root 2
      match d_make_root k root with
      | (none, k) => some (.err .ENOMEM, sb, iput k root)
      | (some root_dentry, k) =>
        let k := lfs_create_files k sb root_dentry
        some (.ok 0, { sb with s_root := some root_dentry }, k)

/-- Directory listing as the host's generic directory operations show it:
the names of the published entries whose parent is `dir`. -/
def listing (k : Kernel) (dir : Dentry) : List String :=
  (k.dentries.filter (fun d => d.d_parent = some dir.d_id)).map (fun d => d.d_name)

/-- Every published entry called "counter" is bound to the cell `counter` and
every published entry called "subcounter" to the cell `subcounter`. -/
def wellBound (ds : List Dentry) : Prop :=
  ∀ d ∈ ds, ∀ ino, d.d_inode = some ino →
    (d.d_name = "counter" → ino.i_private = some .counter) ∧
    (d.d_name = "subcounter" → ino.i_private = some .subcounter)

/-- The root inode as `lfs_fill_super` leaves it before `d_make_root`. -/
def rootInodeOf (k : Kernel) : Inode :=
  ⟨k.next_ino, ⟨some .S_IFDIR, 0o755⟩, k.fsuid, k.fsgid, k.now, k.now, k.now, 2,
    some .simple_dir_operations, some .simple_dir_inode_operations, none⟩

/-- The root entry `d_make_root` returns in `lfs_fill_super`. -/
def rootDentryOf (k : Kernel) : Dentry := ⟨k.next_dentry, "/", none, some (rootInodeOf k)⟩

/-- The superblock once `lfs_fill_super` has stored its four parameters. -/
def filledSuper (sb : SuperBlock) (vm : Nat) : SuperBlock :=
  { s_blocksize := vm, s_blocksize_bits := vm, s_magic := LFS_MAGIC,
    s_op := some .lfs_s_ops, s_root := sb.s_root }

/-- The host state in `lfs_fill_super` once the root inode and the root entry
exist, just before `lfs_create_files`. -/
def kernelAfterRoot (k : Kernel) : Kernel :=
  { k with nalloc := k.nalloc + 1 + 1, next_ino := k.next_ino + 1,
           next_dentry := k.next_dentry + 1,
           dentries := k.dentries ++ [rootDentryOf k] }

/-- A host state before any mount, every allocation succeeding. -/
def freshKernel (counter subcounter : Int) : Kernel :=
  ⟨fun _ => true, 0, 1, 0, 0, 0, 0, [], ⟨counter, subcounter⟩⟩

/-- A superblock before `lfs_fill_super` fills it. -/
def blankSuper : SuperBlock := ⟨0, 0, 0, none, none⟩

/-! ## Facts about the text layer -/

theorem wrap32_id (x : Int) (h1 : INT_MIN ≤ x) (h2 : x ≤ INT_MAX) : wrap32 x = x := by
  unfold INT_MIN at h1
  unfold INT_MAX at h2
  unfold wrap32
  omega

theorem wrap32_range (x : Int) : INT_MIN ≤ wrap32 x ∧ wrap32 x ≤ INT_MAX := by
  unfold INT_MIN INT_MAX wrap32
  omega

theorem wrap32_succ_pred (v : Int) (h1 : INT_MIN ≤ v) (h2 : v ≤ INT_MAX) :
    wrap32 (wrap32 (v + 1) - 1) = v := by
  unfold INT_MIN at h1
  unfold INT_MAX at h2
  unfold wrap32
  omega

theorem digitChar_spec : ∀ d, d < 10 →
    isdigit (digitChar d) = true ∧ (digitChar d).toNat - 48 = d ∧ digitChar d ≠ MINUS := by
  decide

theorem isdigit_NUL : isdigit NUL = false := by decide

theorem decDigits_length_pos : ∀ (f n : Nat), n < f → 0 < (decDigits f n).length := by
  intro f
  induction f with
  | zero => intro n h; omega
  | succ f ih =>
    intro n h
    unfold decDigits
    split <;> simp

theorem decDigits_length_le : ∀ (k f n : Nat), n < f → n < 10 ^ (k + 1) →
    (decDigits f n).length ≤ k + 1 := by
  intro k
  induction k with
  | zero =>
    intro f n hf hn
    cases f with
    | zero => omega
    | succ f =>
      unfold decDigits
      have : n < 10 := by simpa using hn
      simp [this]
  | succ k ih =>
    intro f n hf hn
    cases f with
    | zero => omega
    | succ f =>
      unfold decDigits
      split
      · simp
      · rename_i h10
        have h1 : n / 10 < f := by omega
        have h2 : n / 10 < 10 ^ (k + 1) := by
          rw [Nat.div_lt_iff_lt_mul (by decide)]
          rw [pow_succ] at hn
          exact hn
        have := ih f (n / 10) h1 h2
        simp only [List.length_append, List.length_singleton]
        omega

theorem decDigits_head : ∀ (f n : Nat), n < f →
    ∃ d tl, d < 10 ∧ decDigits f n = digitChar d :: tl := by
  intro f
  induction f with
  | zero => intro n h; omega
  | succ f ih =>
    intro n h
    unfold decDigits
    split
    · rename_i h10
      exact ⟨n, [], h10, rfl⟩
    · rename_i h10
      obtain ⟨d, tl, hd, he⟩ := ih (n / 10) (by omega)
      exact ⟨d, tl ++ [digitChar (n % 10)], hd, by rw [he]; rfl⟩

theorem parseDigits_decDigits : ∀ (f n : Nat), n < f → n < 18446744073709551616 →
    ∀ rest, parseDigits (decDigits f n ++ rest) 0 = parseDigits rest n := by
  intro f
  induction f with
  | zero => intro n h; omega
  | succ f ih =>
    intro n h hn rest
    unfold decDigits
    split
    · rename_i h10
      obtain ⟨hd, hv, _⟩ := digitChar_spec n h10
      simp only [List.singleton_append, parseDigits, hd, hv, if_true]
      congr 1
      omega
    · rename_i h10
      have hlt : n % 10 < 10 := Nat.mod_lt _ (by decide)
      obtain ⟨hd, hv, _⟩ := digitChar_spec (n % 10) hlt
      rw [List.append_assoc, ih (n / 10) (by omega) (by omega)]
      simp only [List.singleton_append, parseDigits, hd, hv, if_true]
      congr 1
      omega

theorem parseDigits_stop (rest : List Char) (acc : Nat)
    (h : ∀ c, rest.head? = some c → isdigit c = false) : parseDigits rest acc = acc := by
  cases rest with
  | nil => rfl
  | cons c cs =>
    have := h c rfl
    simp [parseDigits, this]

/-- Length of the text of `"%d\n"` for a C `int`. -/
theorem fmt_d_nl_length (v : Int) (h1 : INT_MIN ≤ v) (h2 : v ≤ INT_MAX) :
    2 ≤ (fmt_d_nl v).length ∧ (fmt_d_nl v).length ≤ 12 := by
  unfold INT_MIN at h1
  unfold INT_MAX at h2
  have hp := decDigits_length_pos (v.natAbs + 1) v.natAbs (by omega)
  have hl := decDigits_length_le 9 (v.natAbs + 1) v.natAbs (by omega) (by norm_num; omega)
  unfold fmt_d_nl fmt_d fmt_u
  split <;> simp only [List.length_append, List.length_cons, List.length_singleton,
    List.length_nil] <;> omega

/-- Parsing what `%d` printed gives the number back. -/
theorem strtol_fmt_d (v : Int) (h1 : INT_MIN ≤ v) (h2 : v ≤ INT_MAX) (rest : List Char)
    (h : ∀ c, rest.head? = some c → isdigit c = false) :
    wrap32 (simple_strtol (fmt_d v ++ rest)) = v := by
  unfold INT_MIN at h1
  unfold INT_MAX at h2
  unfold simple_strtol simple_strtoul fmt_d fmt_u
  by_cases hv : v < 0
  · simp only [hv, if_true, List.cons_append, List.head?_cons, List.tail_cons]
    rw [parseDigits_decDigits _ _ (by omega) (by omega), parseDigits_stop _ _ h]
    unfold wrap32 wrap64
    omega
  · obtain ⟨d, tl, hd, he⟩ := decDigits_head (v.natAbs + 1) v.natAbs (by omega)
    have hne : digitChar d ≠ MINUS := (digitChar_spec d hd).2.2
    have hhead : (decDigits (v.natAbs + 1) v.natAbs ++ rest).head? ≠ some MINUS := by
      rw [he]
      simpa using hne
    simp only [hv, if_false, hhead]
    rw [parseDigits_decDigits _ _ (by omega) (by omega), parseDigits_stop _ _ h]
    unfold wrap32 wrap64
    omega

/-! ## One call of `lfs_read_file` -/

theorem viewValue_range (g : Globals) (r : CounterRef) (off : Nat)
    (h1 : INT_MIN ≤ atomic_read g r) (h2 : atomic_read g r ≤ INT_MAX) :
    INT_MIN ≤ viewValue g r off ∧ viewValue g r off ≤ INT_MAX := by
  unfold viewValue
  split
  · exact wrap32_range _
  · exact ⟨h1, h2⟩

theorem allSome_map_some (l : List Char) : allSome (l.map some) = some l := by
  induction l with
  | nil => rfl
  | cons c cs ih => simp [allSome, ih]

theorem memread_text (text : List Char) (rest : List (Option Char)) (off n : Nat)
    (h : off + n ≤ text.length) :
    memread (text.map some ++ rest) off n = some ((text.drop off).take n) := by
  unfold memread
  have hlen : off + n ≤ (text.map some ++ rest).length := by
    simp only [List.length_append, List.length_map]
    omega
  rw [if_pos hlen]
  rw [List.drop_append_of_le_length (by simp only [List.length_map]; omega)]
  rw [List.take_append_of_le_length (by simp only [List.length_drop, List.length_map]; omega)]
  rw [← List.map_drop, ← List.map_take]
  exact allSome_map_some _

theorem snprintf_fits (buf : List (Option Char)) (v : Int)
    (h1 : INT_MIN ≤ v) (h2 : v ≤ INT_MAX) :
    snprintf buf TMPSIZE v =
      ((fmt_d_nl v).map some ++ ([some NUL] ++ buf.drop ((fmt_d_nl v).length + 1)),
        ((fmt_d_nl v).length : Int)) := by
  have hl := (fmt_d_nl_length v h1 h2).2
  have ht : (fmt_d_nl v).take (TMPSIZE - 1) = fmt_d_nl v :=
    List.take_of_length_le (by unfold TMPSIZE; omega)
  unfold snprintf
  simp only [ht, List.append_assoc]
  rfl

/-- One call of `lfs_read_file` at a non-negative offset, in closed form. -/
theorem lfs_read_file_eq (g : Globals) (filp : File) (r : CounterRef)
    (hp : filp.private_data = some r)
    (h1 : INT_MIN ≤ atomic_read g r) (h2 : atomic_read g r ≤ INT_MAX)
    (buf_ok : Bool) (count off : Nat) :
    lfs_read_file g filp buf_ok count (off : Int) =
      some (
        if (fmt_d_nl (viewValue g r off)).length < off then
          ⟨afterRead g r off, .ok 0, [], (off : Int)⟩
        else if buf_ok then
          ⟨afterRead g r off, .ok (min count ((fmt_d_nl (viewValue g r off)).length - off)),
            ((fmt_d_nl (viewValue g r off)).drop off).take count,
            ((off + min count ((fmt_d_nl (viewValue g r off)).length - off) : Nat) : Int)⟩
        else ⟨afterRead g r off, .err .EFAULT, [], (off : Int)⟩) := by
  obtain ⟨hv1, hv2⟩ := viewValue_range g r off h1 h2
  have hsn := snprintf_fits (List.replicate TMPSIZE none) (viewValue g r off) hv1 hv2
  unfold lfs_read_file
  rw [hp]
  have e1 : (if (off : Int) > 0 then wrap32 (atomic_read g r - 1) else atomic_read g r)
      = viewValue g r off := by
    unfold viewValue
    by_cases h : 0 < off
    · have : (off : Int) > 0 := by omega
      simp [h, this]
    · have : ¬ (off : Int) > 0 := by omega
      simp [h, this]
  have e2 : (if (off : Int) > 0 then g else atomic_inc g r) = afterRead g r off := by
    unfold afterRead
    by_cases h : 0 < off
    · have : (off : Int) > 0 := by omega
      simp [h, this]
    · have : ¬ (off : Int) > 0 := by omega
      simp [h, this]
  simp only [e1, e2, hsn]
  generalize hT : fmt_d_nl (viewValue g r off) = text
  by_cases hgt : text.length < off
  · have : (off : Int) > (text.length : Int) := by omega
    simp [hgt, this]
  · have hle : ¬ (off : Int) > (text.length : Int) := by omega
    have hneg : ¬ (off : Int) < 0 := by omega
    simp only [hgt, hle, hneg, if_false, Int.toNat_ofNat]
    by_cases hc : (count : Int) > (text.length : Int) - (off : Int)
    · have hmin : min count (text.length - off) = text.length - off := by omega
      have htn : ((text.length : Int) - (off : Int)).toNat = text.length - off := by omega
      simp only [hc, if_true, htn, hmin]
      rw [memread_text text _ off (text.length - off) (by omega)]
      have e3 : List.take (text.length - off) (List.drop off text) =
          List.take count (List.drop off text) := by
        rw [List.take_of_length_le (by simp), List.take_of_length_le (by simp; omega)]
      cases buf_ok <;> simp [e3]
    · have hmin : min count (text.length - off) = count := by omega
      simp only [hc, if_false, hmin]
      rw [memread_text text _ off count (by omega)]
      cases buf_ok <;> simp

/-! ## Draining a descriptor -/

theorem atomic_read_set (g : Globals) (r : CounterRef) (x : Int) :
    atomic_read (atomic_set g r x) r = x := by
  cases r <;> rfl

theorem atomic_set_set (g : Globals) (r : CounterRef) (x y : Int) :
    atomic_set (atomic_set g r x) r y = atomic_set g r y := by
  cases r <;> rfl

theorem drain_zero (filp : File) (req : Nat → Nat) (fuel i : Nat) (g g1 : Globals)
    (off off1 : Int) (b : List Char)
    (h : lfs_read_file g filp true (req i) off = some ⟨g1, .ok 0, b, off1⟩) :
    drain filp req (fuel + 1) i g off = some ([], g1, off1) := by
  simp [drain, h]

theorem drain_succ (filp : File) (req : Nat → Nat) (fuel i n : Nat) (g g1 : Globals)
    (off off1 : Int) (b : List Char)
    (h : lfs_read_file g filp true (req i) off = some ⟨g1, .ok (n + 1), b, off1⟩) :
    drain filp req (fuel + 1) i g off =
      (drain filp req fuel (i + 1) g1 off1).map (fun r => (b ++ r.1, r.2)) := by
  simp [drain, h]

/-- Continuation reads: from an offset inside the text, draining delivers the
rest of the text and leaves the cells alone. -/
theorem drain_cont (filp : File) (r : CounterRef) (hp : filp.private_data = some r)
    (req : Nat → Nat) (hpos : ∀ i, 0 < req i) (g : Globals)
    (h1 : INT_MIN ≤ atomic_read g r) (h2 : atomic_read g r ≤ INT_MAX) :
    ∀ (fuel i off : Nat), 0 < off →
      off ≤ (fmt_d_nl (wrap32 (atomic_read g r - 1))).length →
      (fmt_d_nl (wrap32 (atomic_read g r - 1))).length - off < fuel →
      drain filp req fuel i g (off : Int) =
        some ((fmt_d_nl (wrap32 (atomic_read g r - 1))).drop off, g,
          (((fmt_d_nl (wrap32 (atomic_read g r - 1))).length : Nat) : Int)) := by
  intro fuel
  induction fuel with
  | zero => intro i off _ _ h; omega
  | succ fuel ih =>
    intro i off hoff hle hfuel
    have hread := lfs_read_file_eq g filp r hp h1 h2 true (req i) off
    have hvv : viewValue g r off = wrap32 (atomic_read g r - 1) := by
      unfold viewValue
      simp [hoff]
    have hag : afterRead g r off = g := by
      unfold afterRead
      simp [hoff]
    rw [hvv, hag] at hread
    generalize hT : fmt_d_nl (wrap32 (atomic_read g r - 1)) = text at *
    have hnlt : ¬ text.length < off := by omega
    simp only [hnlt, if_false, if_true] at hread
    by_cases heq : off = text.length
    · have hmin : min (req i) (text.length - off) = 0 := by omega
      rw [hmin] at hread
      rw [drain_zero filp req fuel i g g _ _ _ hread]
      subst heq
      simp
    · have hri := hpos i
      obtain ⟨n, hn⟩ : ∃ n, min (req i) (text.length - off) = n + 1 :=
        ⟨min (req i) (text.length - off) - 1, by omega⟩
      rw [hn] at hread
      rw [drain_succ filp req fuel i n g g _ _ _ hread]
      rw [ih (i + 1) (off + (n + 1)) (by omega) (by omega) (by omega)]
      have e : List.take (req i) (List.drop off text) =
          List.take (n + 1) (List.drop off text) := by
        by_cases hc : req i ≤ text.length - off
        · have : req i = n + 1 := by omega
          rw [this]
        · rw [List.take_of_length_le (by simp; omega),
            List.take_of_length_le (by simp; omega)]
      simp only [Option.map_some', e]
      rw [← List.drop_drop, List.take_append_drop]

/-- A full drain from offset 0: the text of the cell's value, the cell
incremented once. -/
theorem drain_full (filp : File) (r : CounterRef) (hp : filp.private_data = some r)
    (req : Nat → Nat) (hpos : ∀ i, 0 < req i) (g : Globals)
    (h1 : INT_MIN ≤ atomic_read g r) (h2 : atomic_read g r ≤ INT_MAX)
    (fuel : Nat) (hfuel : 12 < fuel) :
    drain filp req fuel 0 g 0 =
      some (fmt_d_nl (atomic_read g r), atomic_set g r (wrap32 (atomic_read g r + 1)),
        (((fmt_d_nl (atomic_read g r)).length : Nat) : Int)) := by
  obtain ⟨fuel, rfl⟩ : ∃ f, fuel = f + 1 := ⟨fuel - 1, by omega⟩
  obtain ⟨hl2, hl12⟩ := fmt_d_nl_length _ h1 h2
  have hread := lfs_read_file_eq g filp r hp h1 h2 true (req 0) 0
  have hvv : viewValue g r 0 = atomic_read g r := by simp [viewValue]
  have hag : afterRead g r 0 = atomic_set g r (wrap32 (atomic_read g r + 1)) := by
    simp [afterRead, atomic_inc]
  rw [hvv, hag] at hread
  have hback : wrap32 (atomic_read (atomic_set g r (wrap32 (atomic_read g r + 1))) r - 1)
      = atomic_read g r := by
    rw [atomic_read_set]
    exact wrap32_succ_pred _ h1 h2
  have hr := wrap32_range (atomic_read g r + 1)
  have hcont := drain_cont filp r hp req hpos
    (atomic_set g r (wrap32 (atomic_read g r + 1)))
    (by rw [atomic_read_set]; exact hr.1) (by rw [atomic_read_set]; exact hr.2)
  rw [hback] at hcont
  generalize hT : fmt_d_nl (atomic_read g r) = text at *
  have hnlt : ¬ text.length < 0 := by omega
  simp only [hnlt, if_false, if_true, List.drop_zero, Nat.sub_zero, Nat.zero_add] at hread
  have hri := hpos 0
  obtain ⟨n, hn⟩ : ∃ n, min (req 0) text.length = n + 1 :=
    ⟨min (req 0) text.length - 1, by omega⟩
  rw [hn] at hread
  have hread2 : lfs_read_file g filp true (req 0) 0 = some
      ⟨atomic_set g r (wrap32 (atomic_read g r + 1)), Ret.ok (n + 1),
        List.take (req 0) text, ((n + 1 : Nat) : Int)⟩ := hread
  rw [drain_succ filp req fuel 0 n g _ 0 _ _ hread2]
  rw [hcont fuel 1 (n + 1) (by omega) (by omega) (by omega)]
  have e : List.take (req 0) text = List.take (n + 1) text := by
    by_cases hc : req 0 ≤ text.length
    · have : req 0 = n + 1 := by omega
      rw [this]
    · rw [List.take_of_length_le (by omega), List.take_of_length_le (by omega)]
  simp only [Option.map_some', e, List.take_append_drop]

/-- After a drain the descriptor sits at the end of the text: every further
read returns 0 and changes nothing. -/
theorem readAll_at_end (filp : File) (r : CounterRef) (hp : filp.private_data = some r)
    (g : Globals) (v : Int) (h1 : INT_MIN ≤ v) (h2 : v ≤ INT_MAX) :
    ∀ later : List Nat,
      readAll filp later (atomic_set g r (wrap32 (v + 1))) (((fmt_d_nl v).length : Nat) : Int) =
        some (later.map (fun _ => Ret.ok 0), atomic_set g r (wrap32 (v + 1)),
          (((fmt_d_nl v).length : Nat) : Int)) := by
  intro later
  have hl := (fmt_d_nl_length v h1 h2).1
  have hr := wrap32_range (v + 1)
  induction later with
  | nil => rfl
  | cons c cs ih =>
    have hread := lfs_read_file_eq (atomic_set g r (wrap32 (v + 1))) filp r hp
      (by rw [atomic_read_set]; exact hr.1) (by rw [atomic_read_set]; exact hr.2)
      true c (fmt_d_nl v).length
    have hvv : viewValue (atomic_set g r (wrap32 (v + 1))) r (fmt_d_nl v).length = v := by
      unfold viewValue
      rw [atomic_read_set, if_pos (by omega)]
      exact wrap32_succ_pred v h1 h2
    have hag : afterRead (atomic_set g r (wrap32 (v + 1))) r (fmt_d_nl v).length =
        atomic_set g r (wrap32 (v + 1)) := by
      unfold afterRead
      rw [if_pos (by omega)]
    rw [hvv, hag] at hread
    simp only [lt_self_iff_false, if_false, if_true, Nat.sub_self, Nat.min_zero,
      Nat.add_zero, List.drop_length, List.take_nil] at hread
    simp only [readAll, hread, ih, Option.map_some', List.map_cons]

/-- C1: for every 32-bit value `v` of the cell behind a descriptor and every
stream `req` of positive request lengths, reading from offset 0 until a call
returns 0 (at most 13 calls) delivers exactly the decimal text of `v` followed
by a newline, ends with the cell at `v + 1` (wrapping in 32 bits) and the
offset at the end of the text; every later read, whatever its length, returns
0 and leaves the cells and the offset as they are. -/
theorem C1_drain_delivers_value_and_increments_once (g : Globals) (filp : File)
    (r : CounterRef) (hp : filp.private_data = some r)
    (h1 : INT_MIN ≤ atomic_read g r) (h2 : atomic_read g r ≤ INT_MAX)
    (req : Nat → Nat) (hpos : ∀ i, 0 < req i) (fuel : Nat) (hfuel : 12 < fuel)
    (later : List Nat) :
    drain filp req fuel 0 g 0 =
        some (fmt_d_nl (atomic_read g r), atomic_set g r (wrap32 (atomic_read g r + 1)),
          (((fmt_d_nl (atomic_read g r)).length : Nat) : Int)) ∧
      readAll filp later (atomic_set g r (wrap32 (atomic_read g r + 1)))
          (((fmt_d_nl (atomic_read g r)).length : Nat) : Int) =
        some (later.map (fun _ => Ret.ok 0), atomic_set g r (wrap32 (atomic_read g r + 1)),
          (((fmt_d_nl (atomic_read g r)).length : Nat) : Int)) :=
  ⟨drain_full filp r hp req hpos g h1 h2 fuel hfuel,
    readAll_at_end filp r hp g (atomic_read g r) h1 h2 later⟩

/-- C1 at the cell value 41 read two bytes at a time, and at the largest
`int`, where the increment wraps. -/
theorem C1_witness :
    (drain ⟨some .counter⟩ (fun _ => 2) 13 0 ⟨41, 7⟩ 0 =
        some (['4', '1', NL], ⟨42, 7⟩, 3) ∧
      readAll ⟨some .counter⟩ [5, 1] ⟨42, 7⟩ 3 = some ([Ret.ok 0, Ret.ok 0], ⟨42, 7⟩, 3)) ∧
    (drain ⟨some .subcounter⟩ (fun i => i + 1) 13 0 ⟨0, 2147483647⟩ 0 =
        some ("2147483647".toList ++ [NL], ⟨0, -2147483648⟩, 11) ∧
      readAll ⟨some .subcounter⟩ [0] ⟨0, -2147483648⟩ 11 =
        some ([Ret.ok 0], ⟨0, -2147483648⟩, 11)) :=
  ⟨C1_drain_delivers_value_and_increments_once ⟨41, 7⟩ ⟨some .counter⟩ .counter rfl
      (by decide) (by decide) (fun _ => 2) (fun _ => Nat.succ_pos 1) 13 (by decide) [5, 1],
    C1_drain_delivers_value_and_increments_once ⟨0, 2147483647⟩ ⟨some .subcounter⟩
      .subcounter rfl (by decide) (by decide) (fun i => i + 1) (fun i => Nat.succ_pos i) 13
      (by decide) [0]⟩

/-- C10: for every 32-bit cell value, every non-negative offset and every
request length, the text `lfs_read_file` renders has between 2 and 12
characters, `snprintf` stores all of it (with its terminator) in the 20-byte
buffer, and the call succeeds delivering at most `count` bytes, which are
exactly the characters of the text at positions `offset ..
offset + delivered - 1`; `offset + delivered` does not pass the end of the
text whenever a byte is delivered or the offset lies inside the text, and at
an offset past the text nothing is delivered.  The value returned is the
number of bytes delivered. -/
theorem C10_read_stays_inside_rendered_text (g : Globals) (filp : File) (r : CounterRef)
    (hp : filp.private_data = some r)
    (h1 : INT_MIN ≤ atomic_read g r) (h2 : atomic_read g r ≤ INT_MAX)
    (buf_ok : Bool) (count : Nat) (offset : Int) (h0 : 0 ≤ offset) :
    ∃ res text, text = fmt_d_nl (viewValue g r offset.toNat) ∧
      lfs_read_file g filp buf_ok count offset = some res ∧
      2 ≤ text.length ∧ text.length ≤ 12 ∧ text.length < TMPSIZE ∧
      snprintf (List.replicate TMPSIZE none) TMPSIZE (viewValue g r offset.toNat) =
        (text.map some ++ ([some NUL] ++ (List.replicate TMPSIZE none).drop (text.length + 1)),
          (text.length : Int)) ∧
      res.out.length ≤ count ∧
      res.out = (text.drop offset.toNat).take res.out.length ∧
      (offset ≤ text.length → offset + res.out.length ≤ text.length) ∧
      (res.out ≠ [] → offset + res.out.length ≤ text.length) ∧
      (text.length < offset → res.out = []) ∧
      (∀ n, res.ret = Ret.ok n → n = res.out.length) := by
  obtain ⟨off, rfl⟩ : ∃ off : Nat, offset = (off : Int) := ⟨offset.toNat, by omega⟩
  obtain ⟨hv1, hv2⟩ := viewValue_range g r off h1 h2
  obtain ⟨hl2, hl12⟩ := fmt_d_nl_length _ hv1 hv2
  have hread := lfs_read_file_eq g filp r hp h1 h2 buf_ok count off
  have hsn := snprintf_fits (List.replicate TMPSIZE none) (viewValue g r off) hv1 hv2
  simp only [Int.toNat_ofNat]
  generalize hT : fmt_d_nl (viewValue g r off) = text at *
  refine ⟨_, text, rfl, hread, hl2, hl12, by unfold TMPSIZE; omega, hsn, ?_⟩
  by_cases hgt : text.length < off
  · simp only [hgt, if_true, List.length_nil]
    refine ⟨by omega, by simp, by omega, by simp, by simp, ?_⟩
    intro n hn
    cases hn
    rfl
  · cases buf_ok
    · simp only [hgt, if_false, List.length_nil, Bool.false_eq_true]
      refine ⟨by omega, by simp, by omega, by simp, by simp, ?_⟩
      intro n hn
      cases hn
    · simp only [hgt, if_false, if_true, List.length_take, List.length_drop]
      refine ⟨by omega, ?_, by omega, fun _ => by omega, by omega, ?_⟩
      · by_cases hc : count ≤ text.length - off
        · rw [Nat.min_eq_left hc]
        · rw [Nat.min_eq_right (by omega)]
          rw [List.take_of_length_le (by simp; omega), List.take_of_length_le (by simp)]
      · intro n hn
        cases hn
        rfl

/-- C10 at the cell value 42, a continuation read at offset 1 asking for 100
bytes: the text is that of 41 and the two bytes after its first are delivered. -/
theorem C10_witness :
    lfs_read_file ⟨42, 0⟩ ⟨some .counter⟩ true 100 1 =
      some ⟨⟨42, 0⟩, Ret.ok 2, ['1', NL], 3⟩ ∧
    ∃ res text, text = fmt_d_nl (viewValue ⟨42, 0⟩ .counter (1 : Int).toNat) ∧
      lfs_read_file ⟨42, 0⟩ ⟨some .counter⟩ true 100 1 = some res ∧
      2 ≤ text.length ∧ text.length ≤ 12 ∧ text.length < TMPSIZE ∧
      snprintf (List.replicate TMPSIZE none) TMPSIZE (viewValue ⟨42, 0⟩ .counter (1 : Int).toNat) =
        (text.map some ++ ([some NUL] ++ (List.replicate TMPSIZE none).drop (text.length + 1)),
          (text.length : Int)) ∧
      res.out.length ≤ 100 ∧
      res.out = (text.drop (1 : Int).toNat).take res.out.length ∧
      ((1 : Int) ≤ text.length → (1 : Int) + res.out.length ≤ text.length) ∧
      (res.out ≠ [] → (1 : Int) + res.out.length ≤ text.length) ∧
      (text.length < (1 : Int) → res.out = []) ∧
      (∀ n, res.ret = Ret.ok n → n = res.out.length) :=
  ⟨by decide, C10_read_stays_inside_rendered_text ⟨42, 0⟩ ⟨some .counter⟩ .counter rfl
    (by decide) (by decide) true 100 1 (by decide)⟩

/-! ## `lfs_write_file` -/

theorem pad_drop (n : Nat) (h : n < TMPSIZE) :
    (List.replicate TMPSIZE NUL).drop n = NUL :: List.replicate (TMPSIZE - 1 - n) NUL := by
  rw [List.drop_replicate]
  obtain ⟨m, hm⟩ : ∃ m, TMPSIZE - n = m + 1 := ⟨TMPSIZE - n - 1, by omega⟩
  rw [hm, List.replicate_succ]
  congr 2
  omega

/-- An accepted write, in closed form: the payload lands in the zeroed
scratch buffer and its parse is stored. -/
theorem lfs_write_file_accept (g : Globals) (filp : File) (r : CounterRef)
    (hp : filp.private_data = some r) (buf : List Char) (hlen : buf.length < TMPSIZE) :
    lfs_write_file g filp buf true 0 =
      some ⟨atomic_set g r (wrap32 (simple_strtol
          (buf ++ NUL :: List.replicate (TMPSIZE - 1 - buf.length) NUL))),
        Ret.ok buf.length, 0⟩ := by
  unfold lfs_write_file
  rw [hp]
  have h : ¬ buf.length ≥ TMPSIZE := by omega
  simp [h, pad_drop buf.length hlen]

theorem parseDigits_mod (l : List Char) : ∀ a : Nat,
    parseDigits l (a % 18446744073709551616) = denotedDigits l a % 18446744073709551616 := by
  induction l with
  | nil => intro a; rfl
  | cons c cs ih =>
    intro a
    unfold parseDigits denotedDigits
    split
    · rw [← ih]
      congr 1
      omega
    · rfl

theorem denotedDigits_pad (l rest : List Char) : ∀ a : Nat,
    denotedDigits (l ++ NUL :: rest) a = denotedDigits l a := by
  induction l with
  | nil => intro a; simp [denotedDigits, isdigit_NUL]
  | cons c cs ih =>
    intro a
    rw [List.cons_append]
    unfold denotedDigits
    split
    · exact ih _
    · rfl

theorem wrap_trunc_pos (p : Nat) :
    wrap32 (wrap64 ((p % 18446744073709551616 : Nat) : Int)) = wrap32 (p : Int) := by
  unfold wrap32 wrap64
  omega

theorem wrap_trunc_neg (p : Nat) :
    wrap32 (wrap64 (-((p % 18446744073709551616 : Nat) : Int))) = wrap32 (-(p : Int)) := by
  unfold wrap32 wrap64
  omega

theorem parseDigits_zero (l : List Char) :
    parseDigits l 0 = denotedDigits l 0 % 18446744073709551616 :=
  parseDigits_mod l 0

/-- What `simple_strtol` returns on a NUL-padded payload, reduced to an
`int`, is the denoted integer reduced to an `int`. -/
theorem strtol_pad_denoted (buf rest : List Char) :
    wrap32 (simple_strtol (buf ++ NUL :: rest)) = wrap32 (denotedInt buf) := by
  have hN : some NUL ≠ some MINUS := by decide
  unfold simple_strtol simple_strtoul denotedInt
  cases buf with
  | nil =>
    have h1 : ([] ++ NUL :: rest).head? ≠ some MINUS := hN
    have h2 : ([] : List Char).head? ≠ some MINUS := by
      intro h
      cases h
    rw [if_neg h1, if_neg h2, parseDigits_zero, denotedDigits_pad [] rest 0]
    exact wrap_trunc_pos _
  | cons c cs =>
    have e1 : ((c :: cs) ++ NUL :: rest).head? = some c := rfl
    have e2 : (c :: cs).head? = some c := rfl
    have e3 : ((c :: cs) ++ NUL :: rest).tail = cs ++ NUL :: rest := rfl
    have e4 : (c :: cs).tail = cs := rfl
    rw [e1, e2, e3, e4]
    by_cases hc : some c = some MINUS
    · rw [if_pos hc, if_pos hc, parseDigits_zero, denotedDigits_pad cs rest 0]
      exact wrap_trunc_neg _
    · rw [if_neg hc, if_neg hc, parseDigits_zero, denotedDigits_pad (c :: cs) rest 0]
      exact wrap_trunc_pos _

theorem lfs_write_file_einval (g : Globals) (filp : File) (r : CounterRef)
    (hp : filp.private_data = some r) (buf : List Char) (src_ok : Bool) (offset : Int)
    (h : offset ≠ 0 ∨ TMPSIZE ≤ buf.length) :
    lfs_write_file g filp buf src_ok offset = some ⟨g, Ret.err .EINVAL, offset⟩ := by
  unfold lfs_write_file
  rw [hp]
  by_cases ho : offset = 0
  · have hc : buf.length ≥ TMPSIZE := by
      cases h with
      | inl h => exact absurd ho h
      | inr h => exact h
    simp [ho, hc]
  · simp [ho]

theorem lfs_write_file_efault (g : Globals) (filp : File) (r : CounterRef)
    (hp : filp.private_data = some r) (buf : List Char) (hlen : buf.length < TMPSIZE) :
    lfs_write_file g filp buf false 0 = some ⟨g, Ret.err .EFAULT, 0⟩ := by
  unfold lfs_write_file
  rw [hp]
  have h : ¬ buf.length ≥ TMPSIZE := by omega
  simp [h]

/-- C4: on a descriptor bound to a cell, `lfs_write_file` returns `-EINVAL`
exactly when the offset is non-zero or the payload has 20 bytes or more,
whether or not the source is readable; when it does, the cells and the offset
are as before; and a 19-byte payload at offset 0 from a readable source is
accepted and 19 is returned. -/
theorem C4_write_einval_iff (g : Globals) (filp : File) (r : CounterRef)
    (hp : filp.private_data = some r) (buf : List Char) (src_ok : Bool) (offset : Int) :
    ∃ res, lfs_write_file g filp buf src_ok offset = some res ∧
      (res.ret = Ret.err .EINVAL ↔ (offset ≠ 0 ∨ 20 ≤ buf.length)) ∧
      (res.ret = Ret.err .EINVAL → res.g = g ∧ res.offset = offset) ∧
      (buf.length = 19 → offset = 0 → src_ok = true → res.ret = Ret.ok 19) := by
  by_cases h : offset ≠ 0 ∨ 20 ≤ buf.length
  · refine ⟨_, lfs_write_file_einval g filp r hp buf src_ok offset h, ?_, ?_, ?_⟩
    · exact ⟨fun _ => h, fun _ => rfl⟩
    · exact fun _ => ⟨rfl, rfl⟩
    · intro h19 h0 _
      cases h with
      | inl h => exact absurd h0 h
      | inr h => omega
  · have ho : offset = 0 := by
      by_contra hne
      exact h (Or.inl hne)
    have hlen : buf.length < TMPSIZE := by
      unfold TMPSIZE
      by_contra hge
      exact h (Or.inr (by omega))
    subst ho
    cases src_ok
    · refine ⟨_, lfs_write_file_efault g filp r hp buf hlen, ?_, ?_, ?_⟩
      · exact ⟨fun e => (by cases e), fun e => absurd e h⟩
      · exact fun e => by cases e
      · exact fun _ _ e => by cases e
    · refine ⟨_, lfs_write_file_accept g filp r hp buf hlen, ?_, ?_, ?_⟩
      · exact ⟨fun e => (by cases e), fun e => absurd e h⟩
      · exact fun e => by cases e
      · intro h19 _ _
        show Ret.ok buf.length = Ret.ok 19
        rw [h19]

/-- C4 at the root counter holding 7: a 19-byte payload at offset 0 is
accepted; the same payload at offset 3 and a 20-byte payload are refused. -/
theorem C4_witness :
    (lfs_write_file ⟨7, 8⟩ ⟨some .counter⟩ (List.replicate 19 '1') true 0).map
        (fun w => w.ret) = some (Ret.ok 19) ∧
    lfs_write_file ⟨7, 8⟩ ⟨some .counter⟩ (List.replicate 19 '1') true 3 =
        some ⟨⟨7, 8⟩, Ret.err .EINVAL, 3⟩ ∧
    lfs_write_file ⟨7, 8⟩ ⟨some .counter⟩ (List.replicate 20 '1') false 0 =
        some ⟨⟨7, 8⟩, Ret.err .EINVAL, 0⟩ ∧
    ∃ res, lfs_write_file ⟨7, 8⟩ ⟨some .counter⟩ (List.replicate 19 '1') true 0 = some res ∧
      (res.ret = Ret.err .EINVAL ↔ ((0 : Int) ≠ 0 ∨ 20 ≤ (List.replicate 19 '1').length)) ∧
      (res.ret = Ret.err .EINVAL → res.g = ⟨7, 8⟩ ∧ res.offset = 0) ∧
      ((List.replicate 19 '1').length = 19 → (0 : Int) = 0 → true = true →
        res.ret = Ret.ok 19) :=
  ⟨by decide, by decide, by decide,
    C4_write_einval_iff ⟨7, 8⟩ ⟨some .counter⟩ .counter rfl (List.replicate 19 '1') true 0⟩

/-- C5 as stated fails: the ten-byte payload "4294967296" denotes 2^32,
is accepted at offset 0 from a readable source, and the cell, an `int`, ends
at 0. -/
theorem C5_counterexample :
    denotedInt "4294967296".toList = 4294967296 ∧
    lfs_write_file ⟨7, 8⟩ ⟨some .counter⟩ "4294967296".toList true 0 =
      some ⟨⟨0, 8⟩, Ret.ok 10, 0⟩ ∧
    atomic_read ⟨0, 8⟩ .counter ≠ denotedInt "4294967296".toList := by
  decide

/-- C5 (amended): for every payload of fewer than 20 bytes written at offset
0 from a readable source, `lfs_write_file` returns the payload length, leaves
the offset at 0, and stores in the cell the integer the payload denotes
reduced to the signed 32-bit range, whatever the cell held before; the stored
value is the denoted integer itself whenever that lies in the signed 32-bit
range. -/
theorem C5_write_stores_denoted_int_mod_2_32 (g : Globals) (filp : File) (r : CounterRef)
    (hp : filp.private_data = some r) (payload : List Char) (hlen : payload.length < 20) :
    lfs_write_file g filp payload true 0 =
        some ⟨atomic_set g r (wrap32 (denotedInt payload)), Ret.ok payload.length, 0⟩ ∧
      atomic_read (atomic_set g r (wrap32 (denotedInt payload))) r =
        wrap32 (denotedInt payload) ∧
      (INT_MIN ≤ denotedInt payload → denotedInt payload ≤ INT_MAX →
        atomic_read (atomic_set g r (wrap32 (denotedInt payload))) r = denotedInt payload) := by
  refine ⟨?_, atomic_read_set _ _ _, ?_⟩
  · rw [lfs_write_file_accept g filp r hp payload hlen, strtol_pad_denoted]
  · intro h1 h2
    rw [atomic_read_set, wrap32_id _ h1 h2]

/-- C5 (amended) at the payloads "-17 apples" and "4294967296". -/
theorem C5_witness :
    (lfs_write_file ⟨7, 8⟩ ⟨some .subcounter⟩ "-17 apples".toList true 0 =
        some ⟨atomic_set ⟨7, 8⟩ .subcounter (wrap32 (denotedInt "-17 apples".toList)),
          Ret.ok "-17 apples".toList.length, 0⟩ ∧
      atomic_read (atomic_set ⟨7, 8⟩ .subcounter (wrap32 (denotedInt "-17 apples".toList)))
          .subcounter = wrap32 (denotedInt "-17 apples".toList) ∧
      (INT_MIN ≤ denotedInt "-17 apples".toList → denotedInt "-17 apples".toList ≤ INT_MAX →
        atomic_read (atomic_set ⟨7, 8⟩ .subcounter (wrap32 (denotedInt "-17 apples".toList)))
          .subcounter = denotedInt "-17 apples".toList)) ∧
    lfs_write_file ⟨7, 8⟩ ⟨some .subcounter⟩ "-17 apples".toList true 0 =
      some ⟨⟨7, -17⟩, Ret.ok 10, 0⟩ :=
  ⟨C5_write_stores_denoted_int_mod_2_32 ⟨7, 8⟩ ⟨some .subcounter⟩ .subcounter rfl
      "-17 apples".toList (by decide), by decide⟩

/-! ## Write, then read -/

theorem fmt_d_length (n : Int) (h1 : INT_MIN ≤ n) (h2 : n ≤ INT_MAX) :
    (fmt_d n).length ≤ 11 := by
  have := (fmt_d_nl_length n h1 h2).2
  unfold fmt_d_nl at this
  simp only [List.length_append, List.length_singleton] at this
  omega

/-- Writing the text of `n`: the cell holds `n` afterwards. -/
theorem lfs_write_file_fmt_d (g : Globals) (filp : File) (r : CounterRef)
    (hp : filp.private_data = some r) (n : Int) (h1 : INT_MIN ≤ n) (h2 : n ≤ INT_MAX) :
    lfs_write_file g filp (fmt_d n) true 0 =
      some ⟨atomic_set g r n, Ret.ok (fmt_d n).length, 0⟩ := by
  have hl := fmt_d_length n h1 h2
  rw [lfs_write_file_accept g filp r hp (fmt_d n) (by unfold TMPSIZE; omega)]
  rw [strtol_fmt_d n h1 h2]
  intro c hc
  have : c = NUL := by
    simp only [List.head?_cons, Option.some.injEq] at hc
    exact hc.symm
  rw [this]
  exact isdigit_NUL

theorem readCycle_eq (inode : Inode) (r : CounterRef) (hp : inode.i_private = some r)
    (req : Nat → Nat) (hpos : ∀ i, 0 < req i) (g : Globals)
    (h1 : INT_MIN ≤ atomic_read g r) (h2 : atomic_read g r ≤ INT_MAX)
    (fuel : Nat) (hfuel : 12 < fuel) :
    readCycle inode req fuel g =
      some (fmt_d_nl (atomic_read g r), atomic_set g r (wrap32 (atomic_read g r + 1))) := by
  unfold readCycle
  rw [drain_full (lfs_open inode ⟨none⟩).1 r hp req hpos g h1 h2 fuel hfuel]
  rfl

/-- C3: for every `n` in the signed 32-bit range, writing the decimal text of
`n` at offset 0 from a readable source is accepted and leaves `n` in the
cell; one complete read cycle on a fresh descriptor then yields the text of
`n` followed by a newline, and, for `n` below the 32-bit maximum, the next
fresh descriptor's cycle yields the text of `n + 1` followed by a newline. -/
theorem C3_write_then_read_round_trip (g : Globals) (inode : Inode) (filp : File)
    (r : CounterRef) (hi : inode.i_private = some r) (hp : filp.private_data = some r)
    (n : Int) (h1 : INT_MIN ≤ n) (h2 : n ≤ INT_MAX)
    (req1 req2 : Nat → Nat) (hpos1 : ∀ i, 0 < req1 i) (hpos2 : ∀ i, 0 < req2 i)
    (fuel : Nat) (hfuel : 12 < fuel) :
    ∃ gw g1, lfs_write_file g filp (fmt_d n) true 0 =
        some ⟨gw, Ret.ok (fmt_d n).length, 0⟩ ∧
      atomic_read gw r = n ∧
      readCycle inode req1 fuel gw = some (fmt_d_nl n, g1) ∧
      (n < INT_MAX → ∃ g2, readCycle inode req2 fuel g1 = some (fmt_d_nl (n + 1), g2)) := by
  refine ⟨atomic_set g r n, atomic_set g r (wrap32 (n + 1)),
    lfs_write_file_fmt_d g filp r hp n h1 h2, atomic_read_set _ _ _, ?_, ?_⟩
  · have := readCycle_eq inode r hi req1 hpos1 (atomic_set g r n)
      (by rw [atomic_read_set]; exact h1) (by rw [atomic_read_set]; exact h2) fuel hfuel
    rw [atomic_read_set, atomic_set_set] at this
    exact this
  · intro hlt
    have hw : wrap32 (n + 1) = n + 1 := by
      unfold INT_MIN at h1
      unfold INT_MAX at hlt
      unfold wrap32
      omega
    have hr := wrap32_range (n + 1)
    have := readCycle_eq inode r hi req2 hpos2 (atomic_set g r (wrap32 (n + 1)))
      (by rw [atomic_read_set]; exact hr.1) (by rw [atomic_read_set]; exact hr.2) fuel hfuel
    rw [atomic_read_set, hw] at this
    rw [hw]
    exact ⟨_, this⟩

/-- C3 at `n = 42`, the payload "42", and at `n = -2147483648`. -/
theorem C3_witness :
    fmt_d 42 = ['4', '2'] ∧
    (∃ gw g1, lfs_write_file ⟨7, 8⟩ ⟨some .counter⟩ (fmt_d 42) true 0 =
        some ⟨gw, Ret.ok (fmt_d 42).length, 0⟩ ∧
      atomic_read gw .counter = 42 ∧
      readCycle ⟨1, ⟨some .S_IFREG, 0o644⟩, 0, 0, 0, 0, 0, 1, some .lfs_file_ops, none,
          some .counter⟩ (fun _ => 1) 13 gw = some (fmt_d_nl 42, g1) ∧
      ((42 : Int) < INT_MAX → ∃ g2,
        readCycle ⟨1, ⟨some .S_IFREG, 0o644⟩, 0, 0, 0, 0, 0, 1, some .lfs_file_ops, none,
          some .counter⟩ (fun _ => 64) 13 g1 = some (fmt_d_nl (42 + 1), g2))) ∧
    readCycle ⟨1, ⟨some .S_IFREG, 0o644⟩, 0, 0, 0, 0, 0, 1, some .lfs_file_ops, none,
        some .counter⟩ (fun _ => 1) 13 ⟨42, 8⟩ = some (['4', '2', NL], ⟨43, 8⟩) ∧
    readCycle ⟨1, ⟨some .S_IFREG, 0o644⟩, 0, 0, 0, 0, 0, 1, some .lfs_file_ops, none,
        some .counter⟩ (fun _ => 64) 13 ⟨43, 8⟩ = some (['4', '3', NL], ⟨44, 8⟩) :=
  ⟨by decide,
    C3_write_then_read_round_trip ⟨7, 8⟩
      ⟨1, ⟨some .S_IFREG, 0o644⟩, 0, 0, 0, 0, 0, 1, some .lfs_file_ops, none, some .counter⟩
      ⟨some .counter⟩ .counter rfl rfl 42 (by decide) (by decide) (fun _ => 1) (fun _ => 64)
      (fun _ => Nat.succ_pos 0) (fun _ => Nat.succ_pos 63) 13 (by decide),
    by decide, by decide⟩

/-! ## Complete read cycles in a row -/

theorem wrap32_wrap_succ (x : Int) : wrap32 (wrap32 x + 1) = wrap32 (x + 1) := by
  unfold wrap32
  omega

theorem atomic_set_read (g : Globals) (r : CounterRef) (x : Int)
    (h : atomic_read g r = x) : atomic_set g r x = g := by
  cases r <;> cases g <;> simp only [atomic_read] at h <;> subst h <;> rfl

/-- From a cell equal to 0, `N` cycles report the texts of 0, 1, ..., `N - 1`
reduced to 32 bits and leave the cell at `N` reduced to 32 bits. -/
theorem readCycles_eq (inode : Inode) (r : CounterRef) (hi : inode.i_private = some r)
    (reqs : Nat → Nat → Nat) (hpos : ∀ k i, 0 < reqs k i) (g : Globals)
    (hg : atomic_read g r = 0) (fuel : Nat) (hfuel : 12 < fuel) :
    ∀ N : Nat, readCycles inode reqs fuel N g =
      some ((List.range N).map (fun j : Nat => fmt_d_nl (wrap32 (j : Int))),
        atomic_set g r (wrap32 (N : Int))) := by
  intro N
  induction N with
  | zero =>
    have h0 : wrap32 ((0 : Nat) : Int) = 0 := by decide
    rw [h0, atomic_set_read g r 0 hg]
    rfl
  | succ n ih =>
    have hr := wrap32_range (n : Int)
    have hc := readCycle_eq inode r hi (reqs n) (hpos n) (atomic_set g r (wrap32 (n : Int)))
      (by rw [atomic_read_set]; exact hr.1) (by rw [atomic_read_set]; exact hr.2) fuel hfuel
    rw [atomic_read_set, atomic_set_set, wrap32_wrap_succ] at hc
    simp only [readCycles, ih, hc, List.range_succ, List.map_append, List.map_cons,
      List.map_nil, Nat.cast_add, Nat.cast_one]

/-- C2 as stated fails: from a cell equal to 0, after cycle number 2^31 the
cell holds -2^31, not 2^31. -/
theorem C2_counterexample :
    ∃ texts gk,
      readCycles ⟨1, ⟨some .S_IFREG, 0o644⟩, 0, 0, 0, 0, 0, 1, some .lfs_file_ops, none,
          some .counter⟩ (fun _ _ => 20) 13 2147483648 ⟨0, 0⟩ = some (texts, gk) ∧
      atomic_read gk .counter = -2147483648 ∧
      atomic_read gk .counter ≠ ((2147483648 : Nat) : Int) :=
  ⟨_, _, readCycles_eq _ .counter rfl (fun _ _ => 20) (fun _ _ => Nat.succ_pos 19) ⟨0, 0⟩ rfl
      13 (by decide) 2147483648, by decide, by decide⟩

/-- C2 (amended): from a cell equal to 0, for every `N` and every `k` with
`1 ≤ k ≤ N`, `N` complete read cycles without interleaved writes all finish;
cycle `k` reports the text of `k - 1` reduced to the signed 32-bit range
followed by a newline, and the cell after cycle `k` holds `k` reduced to the
signed 32-bit range.  So the text is that of `k - 1` for `k ≤ 2^31` and the
cell holds `k` for `k ≤ 2^31 - 1`. -/
theorem C2_read_cycles_count_up_mod_2_32 (inode : Inode) (r : CounterRef)
    (hi : inode.i_private = some r) (reqs : Nat → Nat → Nat) (hpos : ∀ k i, 0 < reqs k i)
    (g : Globals) (hg : atomic_read g r = 0) (fuel : Nat) (hfuel : 12 < fuel)
    (N k : Nat) (hk1 : 1 ≤ k) (hkN : k ≤ N) :
    ∃ texts gN textsk gk,
      readCycles inode reqs fuel N g = some (texts, gN) ∧
      readCycles inode reqs fuel k g = some (textsk, gk) ∧
      texts.length = N ∧
      texts[k - 1]? = some (fmt_d_nl (wrap32 ((k : Int) - 1))) ∧
      atomic_read gk r = wrap32 (k : Int) ∧
      (k ≤ 2147483648 → texts[k - 1]? = some (fmt_d_nl ((k : Int) - 1))) ∧
      (k ≤ 2147483647 → atomic_read gk r = (k : Int)) := by
  have hcast : ((k - 1 : Nat) : Int) = (k : Int) - 1 := by omega
  have hget : ((List.range N).map (fun j : Nat => fmt_d_nl (wrap32 (j : Int))))[k - 1]? =
      some (fmt_d_nl (wrap32 ((k : Int) - 1))) := by
    rw [List.getElem?_map, List.getElem?_range (by omega : k - 1 < N)]
    simp only [Option.map_some', hcast]
  refine ⟨_, _, _, _, readCycles_eq inode r hi reqs hpos g hg fuel hfuel N,
    readCycles_eq inode r hi reqs hpos g hg fuel hfuel k, by simp, hget,
    atomic_read_set _ _ _, ?_, ?_⟩
  · intro hk
    rw [hget]
    have : wrap32 ((k : Int) - 1) = (k : Int) - 1 := by
      unfold wrap32
      omega
    rw [this]
  · intro hk
    rw [atomic_read_set]
    unfold wrap32
    omega

/-- C2 (amended) at three cycles read one byte at a time, second cycle. -/
theorem C2_witness :
    (∃ texts gN textsk gk,
      readCycles ⟨1, ⟨some .S_IFREG, 0o644⟩, 0, 0, 0, 0, 0, 1, some .lfs_file_ops, none,
          some .counter⟩ (fun _ _ => 1) 13 3 ⟨0, 9⟩ = some (texts, gN) ∧
      readCycles ⟨1, ⟨some .S_IFREG, 0o644⟩, 0, 0, 0, 0, 0, 1, some .lfs_file_ops, none,
          some .counter⟩ (fun _ _ => 1) 13 2 ⟨0, 9⟩ = some (textsk, gk) ∧
      texts.length = 3 ∧
      texts[2 - 1]? = some (fmt_d_nl (wrap32 (((2 : Nat) : Int) - 1))) ∧
      atomic_read gk .counter = wrap32 ((2 : Nat) : Int) ∧
      (2 ≤ 2147483648 → texts[2 - 1]? = some (fmt_d_nl (((2 : Nat) : Int) - 1))) ∧
      (2 ≤ 2147483647 → atomic_read gk .counter = ((2 : Nat) : Int))) ∧
    readCycles ⟨1, ⟨some .S_IFREG, 0o644⟩, 0, 0, 0, 0, 0, 1, some .lfs_file_ops, none,
        some .counter⟩ (fun _ _ => 1) 13 3 ⟨0, 9⟩ =
      some ([['0', NL], ['1', NL], ['2', NL]], ⟨3, 9⟩) :=
  ⟨C2_read_cycles_count_up_mod_2_32
      ⟨1, ⟨some .S_IFREG, 0o644⟩, 0, 0, 0, 0, 0, 1, some .lfs_file_ops, none, some .counter⟩
      .counter rfl (fun _ _ => 1) (fun _ _ => Nat.succ_pos 0) ⟨0, 9⟩ rfl 13 (by decide)
      3 2 (by decide) (by decide),
    by decide⟩

/-! ## Mount -/

theorem lfs_make_inode_eq (k : Kernel) (sb : SuperBlock) (mode : Mode) (fops : FileOps) :
    lfs_make_inode k sb mode fops =
      if k.alloc_ok k.nalloc = true then
        (some ⟨k.next_ino, mode, 0, 0, k.now, k.now, k.now, 1, some fops, none, none⟩,
          { k with nalloc := k.nalloc + 1, next_ino := k.next_ino + 1 })
      else (none, { k with nalloc := k.nalloc + 1 }) := by
  unfold lfs_make_inode new_inode tryAlloc get_next_ino
  cases h : k.alloc_ok k.nalloc <;> simp

theorem d_alloc_name_eq (k : Kernel) (parent : Dentry) (name : String) :
    d_alloc_name k parent name =
      if k.alloc_ok k.nalloc = true then
        (some ⟨k.next_dentry, name, some parent.d_id, none⟩,
          { k with nalloc := k.nalloc + 1, next_dentry := k.next_dentry + 1 })
      else (none, { k with nalloc := k.nalloc + 1 }) := by
  unfold d_alloc_name tryAlloc
  cases h : k.alloc_ok k.nalloc <;> simp

theorem d_make_root_eq (k : Kernel) (root_inode : Inode) :
    d_make_root k root_inode =
      if k.alloc_ok k.nalloc = true then
        (some ⟨k.next_dentry, "/", none, some root_inode⟩,
          { k with nalloc := k.nalloc + 1, next_dentry := k.next_dentry + 1,
                   dentries := k.dentries ++ [⟨k.next_dentry, "/", none, some root_inode⟩] })
      else (none, { k with nalloc := k.nalloc + 1 }) := by
  unfold d_make_root tryAlloc iput
  cases h : k.alloc_ok k.nalloc <;> simp

/-- `lfs_create_file` in closed form: the entry is published exactly when
both of its allocations succeed. -/
theorem lfs_create_file_eq (k : Kernel) (sb : SuperBlock) (dir : Dentry) (name : String)
    (c : CounterRef) :
    lfs_create_file k sb dir name c =
      if k.alloc_ok k.nalloc = true then
        if k.alloc_ok (k.nalloc + 1) = true then
          (some ⟨k.next_dentry, name, some dir.d_id, none⟩,
            { k with nalloc := k.nalloc + 1 + 1, next_ino := k.next_ino + 1,
                     next_dentry := k.next_dentry + 1,
                     dentries := k.dentries ++ [⟨k.next_dentry, name, some dir.d_id,
                       some ⟨k.next_ino, ⟨some .S_IFREG, 0o644⟩, 0, 0, k.now, k.now, k.now, 1,
                         some .lfs_file_ops, none, some c⟩⟩] })
        else (none, { k with nalloc := k.nalloc + 1 + 1, next_dentry := k.next_dentry + 1 })
      else (none, { k with nalloc := k.nalloc + 1 }) := by
  unfold lfs_create_file
  rw [d_alloc_name_eq]
  by_cases h0 : k.alloc_ok k.nalloc = true
  · rw [if_pos h0, if_pos h0]
    simp only [lfs_make_inode_eq]
    by_cases h1 : k.alloc_ok (k.nalloc + 1) = true
    · rw [if_pos h1, if_pos h1]
      rfl
    · rw [if_neg h1, if_neg h1]
      rfl
  · rw [if_neg h0, if_neg h0]

/-- `lfs_create_dir` in closed form. -/
theorem lfs_create_dir_eq (k : Kernel) (sb : SuperBlock) (parent : Dentry) (name : String) :
    lfs_create_dir k sb parent name =
      if k.alloc_ok k.nalloc = true then
        if k.alloc_ok (k.nalloc + 1) = true then
          (some ⟨k.next_dentry, name, some parent.d_id, none⟩,
            { k with nalloc := k.nalloc + 1 + 1, next_ino := k.next_ino + 1,
                     next_dentry := k.next_dentry + 1,
                     dentries := k.dentries ++ [⟨k.next_dentry, name, some parent.d_id,
                       some ⟨k.next_ino, ⟨some .S_IFDIR, 0o755⟩, 0, 0, k.now, k.now, k.now, 1,
                         some .simple_dir_operations, some .simple_dir_inode_operations,
                         none⟩⟩] })
        else (none, { k with nalloc := k.nalloc + 1 + 1, next_dentry := k.next_dentry + 1 })
      else (none, { k with nalloc := k.nalloc + 1 }) := by
  unfold lfs_create_dir
  rw [d_alloc_name_eq]
  by_cases h0 : k.alloc_ok k.nalloc = true
  · rw [if_pos h0, if_pos h0]
    simp only [lfs_make_inode_eq]
    by_cases h1 : k.alloc_ok (k.nalloc + 1) = true
    · rw [if_pos h1, if_pos h1]
      rfl
    · rw [if_neg h1, if_neg h1]
      rfl
  · rw [if_neg h0, if_neg h0]

theorem lfs_create_file_frame (k : Kernel) (sb : SuperBlock) (dir : Dentry) (name : String)
    (c : CounterRef) :
    (lfs_create_file k sb dir name c).2.g = k.g ∧
    (lfs_create_file k sb dir name c).2.alloc_ok = k.alloc_ok := by
  rw [lfs_create_file_eq]
  split
  · split <;> exact ⟨rfl, rfl⟩
  · exact ⟨rfl, rfl⟩

theorem lfs_create_dir_frame (k : Kernel) (sb : SuperBlock) (parent : Dentry) (name : String) :
    (lfs_create_dir k sb parent name).2.g = k.g ∧
    (lfs_create_dir k sb parent name).2.alloc_ok = k.alloc_ok := by
  rw [lfs_create_dir_eq]
  split
  · split <;> exact ⟨rfl, rfl⟩
  · exact ⟨rfl, rfl⟩

theorem subdir_step_frame (k1 : Kernel) (sb : SuperBlock) (root : Dentry) :
    (match lfs_create_dir k1 sb root "subdir" with
      | (some subdir, k) => (lfs_create_file k sb subdir "subcounter" .subcounter).2
      | (none, k) => k).g = k1.g := by
  rw [lfs_create_dir_eq]
  by_cases h0 : k1.alloc_ok k1.nalloc = true
  · rw [if_pos h0]
    by_cases h1 : k1.alloc_ok (k1.nalloc + 1) = true
    · rw [if_pos h1]
      simp only []
      rw [(lfs_create_file_frame _ _ _ _ _).1]
    · rw [if_neg h1]
  · rw [if_neg h0]

/-- The layout step resets both cells, whatever they held and whichever
allocations fail. -/
theorem lfs_create_files_g (k : Kernel) (sb : SuperBlock) (root : Dentry) :
    (lfs_create_files k sb root).g = ⟨0, 0⟩ := by
  unfold lfs_create_files
  refine (subdir_step_frame _ sb root).trans ?_
  show atomic_set (lfs_create_file { k with g := atomic_set k.g .counter 0 } sb root
    "counter" .counter).2.g .subcounter 0 = ⟨0, 0⟩
  rw [(lfs_create_file_frame _ _ _ _ _).1]
  rfl

/-- `lfs_fill_super` in closed form, by the outcome of its two allocations
(the root inode, then the root entry). -/
theorem lfs_fill_super_eq (k : Kernel) (sb : SuperBlock) (vm : Nat) :
    lfs_fill_super k sb vm =
      if k.alloc_ok k.nalloc = true then
        if k.alloc_ok (k.nalloc + 1) = true then
          some (Ret.ok 0, { filledSuper sb vm with s_root := some (rootDentryOf k) },
            lfs_create_files (kernelAfterRoot k) (filledSuper sb vm) (rootDentryOf k))
        else
          some (Ret.err .ENOMEM, filledSuper sb vm,
            { k with nalloc := k.nalloc + 1 + 1, next_ino := k.next_ino + 1 })
      else none := by
  unfold lfs_fill_super
  simp only [lfs_make_inode_eq]
  by_cases h0 : k.alloc_ok k.nalloc = true
  · rw [if_pos h0, if_pos h0]
    simp only [inode_init_owner, Option.isNone_some, Bool.false_eq_true, if_false, set_nlink,
      d_make_root_eq]
    by_cases h1 : k.alloc_ok (k.nalloc + 1) = true
    · rw [if_pos h1, if_pos h1]
      rfl
    · rw [if_neg h1, if_neg h1]
      rfl
  · rw [if_neg h0, if_neg h0]
    rfl

/-- C6: whatever the two cells held before (values left by a previous mount
included) and whichever allocations fail, `lfs_create_files` leaves both
cells at 0, and so does every mount that returns 0; the first read at offset
0 of a descriptor opened on the root counter file, with room for the text
(`count ≥ 2`) and a writable buffer, returns the two bytes "0\n" and leaves
the root cell at 1 and the other at 0. -/
theorem C6_mount_resets_counters_first_read_zero (k : Kernel) (sb : SuperBlock)
    (root : Dentry) (filp : File) (hp : filp.private_data = some .counter)
    (count : Nat) (hc : 2 ≤ count) :
    (lfs_create_files k sb root).g = ⟨0, 0⟩ ∧
      (∀ vm sb1 k1, lfs_fill_super k sb vm = some (Ret.ok 0, sb1, k1) → k1.g = ⟨0, 0⟩) ∧
      lfs_read_file (lfs_create_files k sb root).g filp true count 0 =
        some ⟨⟨1, 0⟩, Ret.ok 2, ['0', NL], 2⟩ := by
  refine ⟨lfs_create_files_g k sb root, ?_, ?_⟩
  · intro vm sb1 k1 h
    rw [lfs_fill_super_eq] at h
    split at h
    · split at h
      · simp only [Option.some.injEq, Prod.mk.injEq] at h
        rw [← h.2.2]
        exact lfs_create_files_g _ _ _
      · simp at h
    · simp at h
  · rw [lfs_create_files_g]
    have hread := lfs_read_file_eq ⟨0, 0⟩ filp .counter hp (by decide) (by decide) true count 0
    have htext : fmt_d_nl (viewValue ⟨0, 0⟩ .counter 0) = ['0', NL] := by decide
    have hag : afterRead ⟨0, 0⟩ .counter 0 = ⟨1, 0⟩ := by decide
    rw [htext, hag] at hread
    have hmin : min count 2 = 2 := by omega
    have htake : List.take count ['0', NL] = ['0', NL] :=
      List.take_of_length_le (by simpa using hc)
    simp only [List.length_cons, List.length_nil, Nat.zero_add, Nat.reduceAdd,
      Nat.not_lt_zero, if_false, if_true, Nat.sub_zero, hmin, List.drop_zero, htake] at hread
    exact hread

/-- C6 on a host whose cells hold 5 and 6 from an earlier mount and whose
allocations all fail. -/
theorem C6_witness :
    (lfs_create_files ⟨fun _ => false, 0, 1, 0, 0, 0, 0, [], ⟨5, 6⟩⟩ blankSuper
        ⟨0, "/", none, none⟩).g = ⟨0, 0⟩ ∧
      (∀ vm sb1 k1, lfs_fill_super ⟨fun _ => false, 0, 1, 0, 0, 0, 0, [], ⟨5, 6⟩⟩ blankSuper vm
        = some (Ret.ok 0, sb1, k1) → k1.g = ⟨0, 0⟩) ∧
      lfs_read_file (lfs_create_files ⟨fun _ => false, 0, 1, 0, 0, 0, 0, [], ⟨5, 6⟩⟩
          blankSuper ⟨0, "/", none, none⟩).g ⟨some .counter⟩ true 4096 0 =
        some ⟨⟨1, 0⟩, Ret.ok 2, ['0', NL], 2⟩ :=
  C6_mount_resets_counters_first_read_zero ⟨fun _ => false, 0, 1, 0, 0, 0, 0, [], ⟨5, 6⟩⟩
    blankSuper ⟨0, "/", none, none⟩ ⟨some .counter⟩ rfl 4096 (by decide)

/-- C8: when the root inode cannot be allocated, `lfs_make_inode` returns
NULL and `lfs_fill_super` passes that NULL to `inode_init_owner`, which
stores through it, before the test `if (! root)` is reached: the mount does
not return `-ENOMEM`, it dereferences NULL. -/
theorem C8_root_allocation_failure_dereferences_null (k : Kernel) (sb : SuperBlock)
    (vm : Nat) (hfail : k.alloc_ok k.nalloc = false) :
    (lfs_make_inode k sb ⟨some .S_IFDIR, 0o755⟩ .simple_dir_operations).1 = none ∧
      lfs_fill_super k sb vm = none ∧
      (∀ sb1 k1, lfs_fill_super k sb vm ≠ some (Ret.err .ENOMEM, sb1, k1)) := by
  have hne : ¬ k.alloc_ok k.nalloc = true := by simp [hfail]
  refine ⟨?_, ?_, ?_⟩
  · rw [lfs_make_inode_eq, if_neg hne]
  · rw [lfs_fill_super_eq, if_neg hne]
  · intro sb1 k1 h
    rw [lfs_fill_super_eq, if_neg hne] at h
    cases h

/-- C8 on a host whose first allocation fails. -/
theorem C8_witness :
    (lfs_make_inode ⟨fun i => decide (0 < i), 0, 1, 0, 0, 0, 0, [], ⟨0, 0⟩⟩ blankSuper
        ⟨some .S_IFDIR, 0o755⟩ .simple_dir_operations).1 = none ∧
      lfs_fill_super ⟨fun i => decide (0 < i), 0, 1, 0, 0, 0, 0, [], ⟨0, 0⟩⟩ blankSuper 4 = none ∧
      (∀ sb1 k1, lfs_fill_super ⟨fun i => decide (0 < i), 0, 1, 0, 0, 0, 0, [], ⟨0, 0⟩⟩
        blankSuper 4 ≠ some (Ret.err .ENOMEM, sb1, k1)) :=
  C8_root_allocation_failure_dereferences_null
    ⟨fun i => decide (0 < i), 0, 1, 0, 0, 0, 0, [], ⟨0, 0⟩⟩ blankSuper 4 rfl

/-- The layout step when every allocation succeeds: three entries are
published after those already there. -/
theorem lfs_create_files_all_ok (k : Kernel) (sb : SuperBlock) (root : Dentry)
    (hall : ∀ i, k.alloc_ok i = true) :
    (lfs_create_files k sb root).dentries =
      k.dentries ++
        [⟨k.next_dentry, "counter", some root.d_id,
            some ⟨k.next_ino, ⟨some .S_IFREG, 0o644⟩, 0, 0, k.now, k.now, k.now, 1,
              some .lfs_file_ops, none, some .counter⟩⟩,
          ⟨k.next_dentry + 1, "subdir", some root.d_id,
            some ⟨k.next_ino + 1, ⟨some .S_IFDIR, 0o755⟩, 0, 0, k.now, k.now, k.now, 1,
              some .simple_dir_operations, some .simple_dir_inode_operations, none⟩⟩,
          ⟨k.next_dentry + 1 + 1, "subcounter", some (k.next_dentry + 1),
            some ⟨k.next_ino + 1 + 1, ⟨some .S_IFREG, 0o644⟩, 0, 0, k.now, k.now, k.now, 1,
              some .lfs_file_ops, none, some .subcounter⟩⟩] := by
  unfold lfs_create_files
  simp only [lfs_create_file_eq, lfs_create_dir_eq, hall, if_true, List.append_assoc,
    List.singleton_append]
  rfl

theorem lfs_create_files_under_root (k : Kernel) (sb : SuperBlock) (root : Dentry)
    (hd : k.dentries = [root]) (hall : ∀ i, k.alloc_ok i = true) :
    (lfs_create_files k sb root).dentries =
      [root,
        ⟨k.next_dentry, "counter", some root.d_id,
          some ⟨k.next_ino, ⟨some .S_IFREG, 0o644⟩, 0, 0, k.now, k.now, k.now, 1,
            some .lfs_file_ops, none, some .counter⟩⟩,
        ⟨k.next_dentry + 1, "subdir", some root.d_id,
          some ⟨k.next_ino + 1, ⟨some .S_IFDIR, 0o755⟩, 0, 0, k.now, k.now, k.now, 1,
            some .simple_dir_operations, some .simple_dir_inode_operations, none⟩⟩,
        ⟨k.next_dentry + 1 + 1, "subcounter", some (k.next_dentry + 1),
          some ⟨k.next_ino + 1 + 1, ⟨some .S_IFREG, 0o644⟩, 0, 0, k.now, k.now, k.now, 1,
            some .lfs_file_ops, none, some .subcounter⟩⟩] := by
  rw [lfs_create_files_all_ok k sb root hall, hd]
  rfl

/-- C9: on a mount into an empty namespace in which every allocation
succeeds, `lfs_fill_super` returns 0 and publishes exactly four entries: the
root directory, set as the superblock's root, and under it "counter", a
regular file with the counter operations bound to the cell `counter`, and
"subdir", a directory; under "subdir" the one entry "subcounter", a regular
file with the counter operations bound to the cell `subcounter`.  The
listing of the root is "counter", "subdir", the listing of "subdir" is
"subcounter", and the two files have no entries. -/
theorem C9_mount_builds_fixed_tree (k : Kernel) (sb : SuperBlock) (vm : Nat)
    (hfresh : k.dentries = []) (hall : ∀ i, k.alloc_ok i = true) :
    ∃ sb1 k1 root ri counterD ci subdirD si subcounterD sci,
      lfs_fill_super k sb vm = some (Ret.ok 0, sb1, k1) ∧
      sb1.s_root = some root ∧
      k1.dentries = [root, counterD, subdirD, subcounterD] ∧
      root = ⟨k.next_dentry, "/", none, some ri⟩ ∧
      counterD = ⟨k.next_dentry + 1, "counter", some root.d_id, some ci⟩ ∧
      subdirD = ⟨k.next_dentry + 2, "subdir", some root.d_id, some si⟩ ∧
      subcounterD = ⟨k.next_dentry + 3, "subcounter", some subdirD.d_id, some sci⟩ ∧
      (ri.i_mode.fmt = some .S_IFDIR ∧ ri.i_fop = some .simple_dir_operations) ∧
      (ci.i_mode.fmt = some .S_IFREG ∧ ci.i_fop = some .lfs_file_ops ∧
        ci.i_private = some .counter) ∧
      (si.i_mode.fmt = some .S_IFDIR ∧ si.i_fop = some .simple_dir_operations) ∧
      (sci.i_mode.fmt = some .S_IFREG ∧ sci.i_fop = some .lfs_file_ops ∧
        sci.i_private = some .subcounter) ∧
      listing k1 root = ["counter", "subdir"] ∧
      listing k1 subdirD = ["subcounter"] ∧
      listing k1 counterD = [] ∧
      listing k1 subcounterD = [] := by
  have hfs := lfs_fill_super_eq k sb vm
  rw [if_pos (hall _), if_pos (hall _)] at hfs
  have hroot : (kernelAfterRoot k).dentries = [rootDentryOf k] := by
    unfold kernelAfterRoot
    rw [hfresh]
    rfl
  have hallR : ∀ i, (kernelAfterRoot k).alloc_ok i = true := hall
  have hd := lfs_create_files_under_root (kernelAfterRoot k) (filledSuper sb vm)
    (rootDentryOf k) hroot hallR
  refine ⟨_, _, _, _, _, _, _, _, _, _, hfs, rfl, hd, rfl, rfl, rfl, rfl, ⟨rfl, rfl⟩,
    ⟨rfl, rfl, rfl⟩, ⟨rfl, rfl⟩, ⟨rfl, rfl, rfl⟩, ?_, ?_, ?_, ?_⟩
  all_goals
    have a1 : ¬ k.next_dentry + 1 + 1 = k.next_dentry := by omega
    have a2 : ¬ k.next_dentry = k.next_dentry + 1 + 1 := by omega
    have a3 : ¬ k.next_dentry = k.next_dentry + 1 + 1 + 1 := by omega
    have a4 : ¬ k.next_dentry = k.next_dentry + 1 := by omega
    have a5 : ¬ k.next_dentry + 1 + 1 = k.next_dentry + 1 := by omega
    have a6 : ¬ k.next_dentry + 1 + 1 = k.next_dentry + 1 + 1 + 1 := by omega
    unfold listing
    rw [hd]
    simp [List.filter_cons, rootDentryOf, kernelAfterRoot, a1, a2, a3, a4, a5, a6]

/-- C9 on a host before any mount. -/
theorem C9_witness :
    (∃ sb1 k1 root ri counterD ci subdirD si subcounterD sci,
      lfs_fill_super (freshKernel 5 6) blankSuper 4 = some (Ret.ok 0, sb1, k1) ∧
      sb1.s_root = some root ∧
      k1.dentries = [root, counterD, subdirD, subcounterD] ∧
      root = ⟨(freshKernel 5 6).next_dentry, "/", none, some ri⟩ ∧
      counterD = ⟨(freshKernel 5 6).next_dentry + 1, "counter", some root.d_id, some ci⟩ ∧
      subdirD = ⟨(freshKernel 5 6).next_dentry + 2, "subdir", some root.d_id, some si⟩ ∧
      subcounterD = ⟨(freshKernel 5 6).next_dentry + 3, "subcounter", some subdirD.d_id,
        some sci⟩ ∧
      (ri.i_mode.fmt = some .S_IFDIR ∧ ri.i_fop = some .simple_dir_operations) ∧
      (ci.i_mode.fmt = some .S_IFREG ∧ ci.i_fop = some .lfs_file_ops ∧
        ci.i_private = some .counter) ∧
      (si.i_mode.fmt = some .S_IFDIR ∧ si.i_fop = some .simple_dir_operations) ∧
      (sci.i_mode.fmt = some .S_IFREG ∧ sci.i_fop = some .lfs_file_ops ∧
        sci.i_private = some .subcounter) ∧
      listing k1 root = ["counter", "subdir"] ∧
      listing k1 subdirD = ["subcounter"] ∧
      listing k1 counterD = [] ∧
      listing k1 subcounterD = []) ∧
    (lfs_fill_super (freshKernel 5 6) blankSuper 4).map
      (fun r => (r.1, r.2.2.dentries.map (fun d => (d.d_id, d.d_name, d.d_parent)))) =
      some (Ret.ok 0, [(0, "/", none), (1, "counter", some 0), (2, "subdir", some 0),
        (3, "subcounter", some 2)]) :=
  ⟨C9_mount_builds_fixed_tree (freshKernel 5 6) blankSuper 4 rfl (fun _ => rfl), rfl⟩

/-! ## The two cells are independent -/

theorem wellBound_append (ds : List Dentry) (d : Dentry) (h : wellBound ds)
    (hd : ∀ ino, d.d_inode = some ino →
      (d.d_name = "counter" → ino.i_private = some .counter) ∧
      (d.d_name = "subcounter" → ino.i_private = some .subcounter)) :
    wellBound (ds ++ [d]) := by
  intro e he
  rw [List.mem_append, List.mem_singleton] at he
  cases he with
  | inl he => exact h e he
  | inr he =>
    rw [he]
    exact hd

theorem lfs_create_file_bound (k : Kernel) (sb : SuperBlock) (dir : Dentry) (name : String)
    (c : CounterRef) (h : wellBound k.dentries)
    (h1 : name = "counter" → c = .counter) (h2 : name = "subcounter" → c = .subcounter) :
    wellBound (lfs_create_file k sb dir name c).2.dentries := by
  rw [lfs_create_file_eq]
  split
  · split
    · refine wellBound_append _ _ h ?_
      intro ino hino
      simp only [Option.some.injEq] at hino
      subst hino
      exact ⟨fun e => by rw [h1 e], fun e => by rw [h2 e]⟩
    · exact h
  · exact h

theorem lfs_create_dir_bound (k : Kernel) (sb : SuperBlock) (parent : Dentry) (name : String)
    (h : wellBound k.dentries) (h1 : name ≠ "counter") (h2 : name ≠ "subcounter") :
    wellBound (lfs_create_dir k sb parent name).2.dentries := by
  rw [lfs_create_dir_eq]
  split
  · split
    · refine wellBound_append _ _ h ?_
      intro ino _
      exact ⟨fun e => absurd e h1, fun e => absurd e h2⟩
    · exact h
  · exact h

theorem subdir_step_bound (k1 : Kernel) (sb : SuperBlock) (root : Dentry)
    (h : wellBound k1.dentries) :
    wellBound (match lfs_create_dir k1 sb root "subdir" with
      | (some subdir, k) => (lfs_create_file k sb subdir "subcounter" .subcounter).2
      | (none, k) => k).dentries := by
  have hb := lfs_create_dir_bound k1 sb root "subdir" h (by decide) (by decide)
  generalize lfs_create_dir k1 sb root "subdir" = res at hb
  obtain ⟨o, k2⟩ := res
  cases o with
  | none => exact hb
  | some subdir =>
    exact lfs_create_file_bound k2 sb subdir "subcounter" .subcounter hb
      (fun e => absurd e (by decide)) (fun _ => rfl)

theorem lfs_create_files_bound (k : Kernel) (sb : SuperBlock) (root : Dentry)
    (h : wellBound k.dentries) : wellBound (lfs_create_files k sb root).dentries := by
  unfold lfs_create_files
  refine subdir_step_bound _ sb root ?_
  exact lfs_create_file_bound { k with g := atomic_set k.g .counter 0 } sb root "counter"
    .counter h (fun _ => rfl) (fun e => absurd e (by decide))

/-- After any mount into an empty namespace, whichever allocations fail, the
published entries called "counter" and "subcounter" are bound to their own
cells. -/
theorem lfs_fill_super_bound (k : Kernel) (sb : SuperBlock) (vm : Nat)
    (hfresh : k.dentries = []) (rc : Ret) (sb1 : SuperBlock) (k1 : Kernel)
    (h : lfs_fill_super k sb vm = some (rc, sb1, k1)) : wellBound k1.dentries := by
  rw [lfs_fill_super_eq] at h
  split at h
  · split at h
    · simp only [Option.some.injEq, Prod.mk.injEq] at h
      rw [← h.2.2]
      refine lfs_create_files_bound _ _ _ ?_
      unfold kernelAfterRoot
      rw [hfresh]
      intro d hd
      simp only [List.nil_append, List.mem_singleton] at hd
      rw [hd]
      intro ino _
      have n1 : ¬ "/" = "counter" := by decide
      have n2 : ¬ "/" = "subcounter" := by decide
      exact ⟨fun e => absurd e n1, fun e => absurd e n2⟩
    · simp only [Option.some.injEq, Prod.mk.injEq] at h
      rw [← h.2.2, hfresh]
      intro d hd
      cases hd
  · cases h

theorem atomic_read_set_other (g : Globals) (r r1 : CounterRef) (x : Int) (h : r1 ≠ r) :
    atomic_read (atomic_set g r x) r1 = atomic_read g r1 := by
  cases r <;> cases r1 <;> first | rfl | exact absurd rfl h

/-- A read touches no cell other than the descriptor's. -/
theorem lfs_read_file_frame (g : Globals) (filp : File) (r : CounterRef)
    (hp : filp.private_data = some r) (buf_ok : Bool) (count : Nat) (offset : Int)
    (res : ReadResult) (h : lfs_read_file g filp buf_ok count offset = some res)
    (r1 : CounterRef) (hne : r1 ≠ r) : atomic_read res.g r1 = atomic_read g r1 := by
  have key : res.g = g ∨ res.g = atomic_inc g r := by
    unfold lfs_read_file at h
    rw [hp] at h
    simp only at h
    by_cases ho : offset > 0
    · left
      simp only [ho, if_true] at h
      split at h
      · cases h; rfl
      · split at h
        · cases h
        · split at h
          · cases h
          · split at h <;> · cases h; rfl
    · right
      simp only [ho, if_false] at h
      split at h
      · cases h; rfl
      · split at h
        · cases h
        · split at h
          · cases h
          · split at h <;> · cases h; rfl
  cases key with
  | inl e => rw [e]
  | inr e =>
    rw [e]
    exact atomic_read_set_other g r r1 _ hne

/-- A write touches no cell other than the descriptor's, and always returns. -/
theorem lfs_write_file_frame (g : Globals) (filp : File) (r : CounterRef)
    (hp : filp.private_data = some r) (buf : List Char) (src_ok : Bool) (offset : Int)
    (r1 : CounterRef) (hne : r1 ≠ r) :
    ∃ res, lfs_write_file g filp buf src_ok offset = some res ∧
      atomic_read res.g r1 = atomic_read g r1 := by
  by_cases h : offset ≠ 0 ∨ TMPSIZE ≤ buf.length
  · exact ⟨_, lfs_write_file_einval g filp r hp buf src_ok offset h, rfl⟩
  · have ho : offset = 0 := by
      by_contra hne0
      exact h (Or.inl hne0)
    have hlen : buf.length < TMPSIZE := by
      by_contra hge
      exact h (Or.inr (by omega))
    subst ho
    cases src_ok
    · exact ⟨_, lfs_write_file_efault g filp r hp buf hlen, rfl⟩
    · exact ⟨_, lfs_write_file_accept g filp r hp buf hlen,
        atomic_read_set_other g r r1 _ hne⟩

/-- A read at a non-negative offset of a descriptor bound to a cell holding
a 32-bit value always returns. -/
theorem lfs_read_file_total (g : Globals) (filp : File) (r : CounterRef)
    (hp : filp.private_data = some r)
    (h1 : INT_MIN ≤ atomic_read g r) (h2 : atomic_read g r ≤ INT_MAX)
    (buf_ok : Bool) (count : Nat) (offset : Int) (h0 : 0 ≤ offset) :
    ∃ res, lfs_read_file g filp buf_ok count offset = some res := by
  obtain ⟨off, rfl⟩ : ∃ off : Nat, offset = (off : Int) := ⟨offset.toNat, by omega⟩
  exact ⟨_, lfs_read_file_eq g filp r hp h1 h2 buf_ok count off⟩

/-- C7: after any mount into an empty namespace (whichever allocations
fail), take a published entry and its inode.  If the entry is called
"counter", `lfs_open` on it binds the descriptor to the cell `counter` and
returns 0 (it has no access to the cells), every read through the descriptor
that returns, successful or failing, leaves the cell `subcounter` as it was,
reads at non-negative offsets with a 32-bit cell value do return, and every
write, accepted or refused, returns and leaves `subcounter` as it was.
Symmetrically for an entry called "subcounter" and the cell `counter`. -/
theorem C7_root_and_subdir_counters_independent (k : Kernel) (sb : SuperBlock) (vm : Nat)
    (hfresh : k.dentries = []) (rc : Ret) (sb1 : SuperBlock) (k1 : Kernel)
    (hm : lfs_fill_super k sb vm = some (rc, sb1, k1))
    (d : Dentry) (hd : d ∈ k1.dentries) (ino : Inode) (hino : d.d_inode = some ino)
    (f0 : File) (g : Globals) :
    (d.d_name = "counter" →
      (lfs_open ino f0).1.private_data = some .counter ∧ (lfs_open ino f0).2 = Ret.ok 0 ∧
      (∀ buf_ok count offset res,
        lfs_read_file g (lfs_open ino f0).1 buf_ok count offset = some res →
          res.g.subcounter = g.subcounter) ∧
      (∀ buf_ok count offset, 0 ≤ offset → INT_MIN ≤ g.counter → g.counter ≤ INT_MAX →
        ∃ res, lfs_read_file g (lfs_open ino f0).1 buf_ok count offset = some res) ∧
      (∀ buf src_ok offset, ∃ res,
        lfs_write_file g (lfs_open ino f0).1 buf src_ok offset = some res ∧
          res.g.subcounter = g.subcounter)) ∧
    (d.d_name = "subcounter" →
      (lfs_open ino f0).1.private_data = some .subcounter ∧ (lfs_open ino f0).2 = Ret.ok 0 ∧
      (∀ buf_ok count offset res,
        lfs_read_file g (lfs_open ino f0).1 buf_ok count offset = some res →
          res.g.counter = g.counter) ∧
      (∀ buf_ok count offset, 0 ≤ offset → INT_MIN ≤ g.subcounter → g.subcounter ≤ INT_MAX →
        ∃ res, lfs_read_file g (lfs_open ino f0).1 buf_ok count offset = some res) ∧
      (∀ buf src_ok offset, ∃ res,
        lfs_write_file g (lfs_open ino f0).1 buf src_ok offset = some res ∧
          res.g.counter = g.counter)) := by
  have hb := lfs_fill_super_bound k sb vm hfresh rc sb1 k1 hm d hd ino hino
  constructor
  · intro hname
    have hp : (lfs_open ino f0).1.private_data = some .counter := hb.1 hname
    refine ⟨hp, rfl, ?_, ?_, ?_⟩
    · intro buf_ok count offset res h
      exact lfs_read_file_frame g _ .counter hp buf_ok count offset res h .subcounter
        (by decide)
    · intro buf_ok count offset h0 h1 h2
      exact lfs_read_file_total g _ .counter hp h1 h2 buf_ok count offset h0
    · intro buf src_ok offset
      exact lfs_write_file_frame g _ .counter hp buf src_ok offset .subcounter (by decide)
  · intro hname
    have hp : (lfs_open ino f0).1.private_data = some .subcounter := hb.2 hname
    refine ⟨hp, rfl, ?_, ?_, ?_⟩
    · intro buf_ok count offset res h
      exact lfs_read_file_frame g _ .subcounter hp buf_ok count offset res h .counter
        (by decide)
    · intro buf_ok count offset h0 h1 h2
      exact lfs_read_file_total g _ .subcounter hp h1 h2 buf_ok count offset h0
    · intro buf src_ok offset
      exact lfs_write_file_frame g _ .subcounter hp buf src_ok offset .counter (by decide)

/-- C7 on the entry "counter" of a mount on a host before any mount, with
the cells at 3 and 4: a read moves the first cell only, a write of "9" too. -/
theorem C7_witness :
    (((⟨1, "counter", some 0, some ⟨2, ⟨some .S_IFREG, 0o644⟩, 0, 0, 0, 0, 0, 1, some .lfs_file_ops, none, some .counter⟩⟩ : Dentry).d_name = "counter" →
      (lfs_open ⟨2, ⟨some .S_IFREG, 0o644⟩, 0, 0, 0, 0, 0, 1, some .lfs_file_ops, none, some .counter⟩ ⟨none⟩).1.private_data = some .counter ∧
      (lfs_open ⟨2, ⟨some .S_IFREG, 0o644⟩, 0, 0, 0, 0, 0, 1, some .lfs_file_ops, none, some .counter⟩ ⟨none⟩).2 = Ret.ok 0 ∧
      (∀ buf_ok count offset res,
        lfs_read_file ⟨3, 4⟩ (lfs_open ⟨2, ⟨some .S_IFREG, 0o644⟩, 0, 0, 0, 0, 0, 1, some .lfs_file_ops, none, some .counter⟩ ⟨none⟩).1 buf_ok count offset = some res →
          res.g.subcounter = (⟨3, 4⟩ : Globals).subcounter) ∧
      (∀ buf_ok count offset, 0 ≤ offset → INT_MIN ≤ (⟨3, 4⟩ : Globals).counter →
        (⟨3, 4⟩ : Globals).counter ≤ INT_MAX →
        ∃ res, lfs_read_file ⟨3, 4⟩ (lfs_open ⟨2, ⟨some .S_IFREG, 0o644⟩, 0, 0, 0, 0, 0, 1, some .lfs_file_ops, none, some .counter⟩ ⟨none⟩).1 buf_ok count offset = some res) ∧
      (∀ buf src_ok offset, ∃ res,
        lfs_write_file ⟨3, 4⟩ (lfs_open ⟨2, ⟨some .S_IFREG, 0o644⟩, 0, 0, 0, 0, 0, 1, some .lfs_file_ops, none, some .counter⟩ ⟨none⟩).1 buf src_ok offset = some res ∧
          res.g.subcounter = (⟨3, 4⟩ : Globals).subcounter)) ∧
    ((⟨1, "counter", some 0, some ⟨2, ⟨some .S_IFREG, 0o644⟩, 0, 0, 0, 0, 0, 1, some .lfs_file_ops, none, some .counter⟩⟩ : Dentry).d_name = "subcounter" →
      (lfs_open ⟨2, ⟨some .S_IFREG, 0o644⟩, 0, 0, 0, 0, 0, 1, some .lfs_file_ops, none, some .counter⟩ ⟨none⟩).1.private_data = some .subcounter ∧
      (lfs_open ⟨2, ⟨some .S_IFREG, 0o644⟩, 0, 0, 0, 0, 0, 1, some .lfs_file_ops, none, some .counter⟩ ⟨none⟩).2 = Ret.ok 0 ∧
      (∀ buf_ok count offset res,
        lfs_read_file ⟨3, 4⟩ (lfs_open ⟨2, ⟨some .S_IFREG, 0o644⟩, 0, 0, 0, 0, 0, 1, some .lfs_file_ops, none, some .counter⟩ ⟨none⟩).1 buf_ok count offset = some res →
          res.g.counter = (⟨3, 4⟩ : Globals).counter) ∧
      (∀ buf_ok count offset, 0 ≤ offset → INT_MIN ≤ (⟨3, 4⟩ : Globals).subcounter →
        (⟨3, 4⟩ : Globals).subcounter ≤ INT_MAX →
        ∃ res, lfs_read_file ⟨3, 4⟩ (lfs_open ⟨2, ⟨some .S_IFREG, 0o644⟩, 0, 0, 0, 0, 0, 1, some .lfs_file_ops, none, some .counter⟩ ⟨none⟩).1 buf_ok count offset = some res) ∧
      (∀ buf src_ok offset, ∃ res,
        lfs_write_file ⟨3, 4⟩ (lfs_open ⟨2, ⟨some .S_IFREG, 0o644⟩, 0, 0, 0, 0, 0, 1, some .lfs_file_ops, none, some .counter⟩ ⟨none⟩).1 buf src_ok offset = some res ∧
          res.g.counter = (⟨3, 4⟩ : Globals).counter))) ∧
    lfs_read_file ⟨3, 4⟩ (lfs_open ⟨2, ⟨some .S_IFREG, 0o644⟩, 0, 0, 0, 0, 0, 1, some .lfs_file_ops, none, some .counter⟩ ⟨none⟩).1 true 8 0 = some ⟨⟨4, 4⟩, Ret.ok 2, ['3', NL], 2⟩ ∧
    lfs_write_file ⟨3, 4⟩ (lfs_open ⟨2, ⟨some .S_IFREG, 0o644⟩, 0, 0, 0, 0, 0, 1, some .lfs_file_ops, none, some .counter⟩ ⟨none⟩).1 ['9'] true 0 = some ⟨⟨9, 4⟩, Ret.ok 1, 0⟩ :=
  ⟨C7_root_and_subdir_counters_independent (freshKernel 5 6) blankSuper 4 rfl _ _ _ rfl
      (⟨1, "counter", some 0, some ⟨2, ⟨some .S_IFREG, 0o644⟩, 0, 0, 0, 0, 0, 1, some .lfs_file_ops, none, some .counter⟩⟩ : Dentry) (List.Mem.tail _ (List.Mem.head _)) _ rfl ⟨none⟩ ⟨3, 4⟩,
    by decide, by decide⟩

end LFS
